import Mathlib

/-!
Report formatting of `ledger` (`format.cc`).

A shallow embedding of the format compiler (`format_t::parse_elements`), of the
text helpers (`truncated`, `partial_account_name`), of the renderer
(`format_t::format_elements`) and of the row drivers
(`format_transaction::operator()` in non-collapsed mode and
`format_account::operator()`), followed by the properties proved about them.

Conventions of the embedding:

* a `std::string` is a `List Char`; the character `'\x00'` is the C terminator;
* a `char` buffer is a `List Char` of the buffer's size, and every access
  outside of it is reported as `fault.out_of_bounds`;
* `unsigned int` is 32 bits wide: values are natural numbers taken modulo
  `2 ^ 32` wherever the code can wrap;
* collaborators that live outside `format.cc` (the expression parser, the
  amount and balance arithmetic, `strftime`) are parameters.
-/

namespace ledger

/-! ## Faults -/

/-- Ways in which a run of the C++ code can leave its defined behaviour. -/
inductive fault where
  /-- An `assert` failed. -/
  | assertion
  /-- A read or a write outside of the object it addresses. -/
  | out_of_bounds
  /-- The exception `format_error`, with its message. -/
  | format_error (msg : String)
  /-- An exception raised by the expression parser. -/
  | expr_error (msg : String)
  /-- The recursion budget of a loop of the embedding is used up. No function
  below returns it: every loop is started with a budget that suffices. -/
  | out_of_fuel
  deriving DecidableEq, Repr

deriving instance DecidableEq for Except

/-! ## C strings and buffers -/

/-- The terminator of a C string. -/
def NUL : Char := Char.ofNat 0

/-- The size of `unsigned int`: arithmetic on it is modulo this number. -/
def UINT_SIZE : Nat := 4294967296

/-- The text seen through `c_str()` by a function that stops at the first
terminator. -/
def c_str (s : List Char) : List Char :=
  s.takeWhile (fun c => c != NUL)

/-- The 256-byte `buf` after `std::memset(buf, 0, 255)`: the first 255 bytes are
cleared, the last one keeps whatever the stack held (`buf255`). -/
def memset_buf (buf255 : Char) : List Char :=
  List.replicate 255 NUL ++ [buf255]

/-- The call `std::strncpy(buf, src, n)`: exactly `n` bytes are written from the
start of `buf`, the characters of `src` up to its terminator and then
terminators as padding. -/
def strncpy (buf src : List Char) (n : Nat) : Except fault (List Char) :=
  if n ≤ buf.length then
    let copied := (c_str src).take n
    .ok (copied ++ List.replicate (n - copied.length) NUL ++ buf.drop n)
  else
    .error .out_of_bounds

/-- The call `std::strcpy(&buf[i], "..")`: three bytes are written from index
`i`, two dots and the terminator. -/
def strcpy_dots (buf : List Char) (i : Nat) : Except fault (List Char) :=
  if i + 3 ≤ buf.length then
    .ok (buf.take i ++ ['.', '.', NUL] ++ buf.drop (i + 3))
  else
    .error .out_of_bounds

/-- The conversion of `buf` to a `std::string` (`return buf`): the bytes before
the first terminator, which has to lie inside the buffer. -/
def string_of_buf (buf : List Char) : Except fault (List Char) :=
  if NUL ∈ buf then .ok (c_str buf) else .error .out_of_bounds

/-- The function `truncated` (format.cc, lines 6-15). `buf255` is the content of
the byte `buf[255]`, which `memset` does not clear. -/
def truncated (buf255 : Char) (str : List Char) (width : Nat) :
    Except fault (List Char) :=
  let buf := memset_buf buf255
  if width < 256 then
    match strncpy buf str str.length with
    | .error e => .error e
    | .ok buf =>
      if buf.getD width NUL != NUL then
        match strcpy_dots buf ((width + UINT_SIZE - 2) % UINT_SIZE) with
        | .error e => .error e
        | .ok buf => string_of_buf buf
      else
        string_of_buf buf
  else
    .error .assertion

/-! ## Elements -/

/-- The enumeration `element_t::kind_t`, in the order of the dispatch of
`format_elements`. -/
inductive kind_t where
  | STRING
  | VALUE_EXPR
  | DATE_STRING
  | CLEARED
  | CODE
  | PAYEE
  | ACCOUNT_NAME
  | ACCOUNT_FULLNAME
  | OPT_AMOUNT
  | VALUE
  | TOTAL
  | SPACER
  deriving DecidableEq, Repr

/-- Modelled from the spec: `element_t` is declared in `format.h`, which is not
part of the sources. Its fields are those of the data model of the spec (the
`next` pointer is the list structure); a fresh element (`new element_t`) is
right-aligned, has both widths 0, no text and no expression. The kind the
constructor leaves is not stated, so `type` is `none` until `parse_elements`
assigns one. The widths are `unsigned int`. -/
structure element_t (node : Type) where
  align_left : Bool := false
  min_width : Nat := 0
  max_width : Nat := 0
  type : Option kind_t := none
  chars : List Char := []
  val_expr : Option node := none
  deriving DecidableEq, Repr

/-! ## The format compiler -/

/-- The character under the cursor (`*p`); the cursor is the rest of the text,
and the empty rest is the position of the terminator. -/
def deref (p : List Char) : Char := p.headD NUL

/-- The test `*p && std::isdigit(*p)`. -/
def digit_here (c : Char) : Bool := c != NUL && c.isDigit

/-- The test `*p && *p != close` of the loops that look for `)` and `]`. -/
def before_close (close : Char) (c : Char) : Bool := c != NUL && c != close

/-- The largest `long` (64 bits). -/
def LONG_MAX : Nat := 9223372036854775807

/-- The call `std::atol(num.c_str())` on a text made of decimal digits: its
value, limited to `LONG_MAX`. -/
def atol (num : List Char) : Nat :=
  min (num.foldl (fun v c => 10 * v + (c.toNat - 48)) 0) LONG_MAX

/-- Lines 64-67 of `parse_elements`: the optional `-`. -/
def parse_flag {node : Type} (current : element_t node) (p : List Char) :
    element_t node × List Char :=
  if deref p = '-' then ({ current with align_left := true }, p.tail)
  else (current, p)

/-- Lines 69-73 of `parse_elements`: the optional digits of the minimum width.
The value of `atol` is stored in an `unsigned int`. -/
def parse_min_width {node : Type} (current : element_t node) (p : List Char) :
    element_t node × List Char :=
  let num := p.takeWhile digit_here
  let p := p.dropWhile digit_here
  if num ≠ [] then ({ current with min_width := atol num % UINT_SIZE }, p)
  else (current, p)

/-- Lines 75-85 of `parse_elements`: the optional `.` and the digits of the
maximum width, which is also the minimum width when that one is 0. -/
def parse_max_width {node : Type} (current : element_t node) (p : List Char) :
    element_t node × List Char :=
  if deref p = '.' then
    let p := p.tail
    let num := p.takeWhile digit_here
    let p := p.dropWhile digit_here
    if num ≠ [] then
      let current := { current with max_width := atol num % UINT_SIZE }
      if current.min_width = 0 then
        ({ current with min_width := current.max_width }, p)
      else (current, p)
    else (current, p)
  else (current, p)

/-- Lines 87-131 of `parse_elements`: the `switch` on the dispatch character.
The result is the element filled in and the cursor the `switch` stopped at. -/
def dispatch {node : Type} (parse_expr : List Char → Except fault node)
    (current : element_t node) (p : List Char) :
    Except fault (element_t node × List Char) :=
  if deref p = '%' then
    .ok ({ current with type := some .STRING, chars := ['%'] }, p)
  else if deref p = '(' then
    let p := p.tail
    let num := p.takeWhile (before_close ')')
    let p := p.dropWhile (before_close ')')
    if deref p ≠ ')' then .error (.format_error "Missing ')'")
    else
      match parse_expr num with
      | .error e => .error e
      | .ok v => .ok ({ current with type := some .VALUE_EXPR, val_expr := some v }, p)
  else if deref p = '[' then
    let p := p.tail
    let num := p.takeWhile (before_close ']')
    let p := p.dropWhile (before_close ']')
    if deref p ≠ ']' then .error (.format_error "Missing ']'")
    else .ok ({ current with type := some .DATE_STRING, chars := num }, p)
  else if deref p = 'd' then
    .ok ({ current with type := some .DATE_STRING, chars := "%Y/%m/%d".toList }, p)
  else if deref p = 'X' then .ok ({ current with type := some .CLEARED }, p)
  else if deref p = 'C' then .ok ({ current with type := some .CODE }, p)
  else if deref p = 'p' then .ok ({ current with type := some .PAYEE }, p)
  else if deref p = 'n' then .ok ({ current with type := some .ACCOUNT_NAME }, p)
  else if deref p = 'N' then .ok ({ current with type := some .ACCOUNT_FULLNAME }, p)
  else if deref p = 'o' then .ok ({ current with type := some .OPT_AMOUNT }, p)
  else if deref p = 't' then .ok ({ current with type := some .VALUE }, p)
  else if deref p = 'T' then .ok ({ current with type := some .TOTAL }, p)
  else if deref p = '_' then .ok ({ current with type := some .SPACER }, p)
  else .ok (current, p)

/-- The body of the `%` branch of `parse_elements` from the `++p` of line 63 to
the end of the `switch` (lines 63-131): `p` is the cursor after the `%` and the
element is the fresh one of lines 47-61. -/
def parse_directive {node : Type} (parse_expr : List Char → Except fault node)
    (p : List Char) : Except fault (element_t node × List Char) :=
  let (current, p) := parse_flag {} p
  let (current, p) := parse_min_width current p
  let (current, p) := parse_max_width current p
  dispatch parse_expr current p

/-- The pending literal run `str` turned into a `STRING` element at the end of
the chain `result` (lines 54-61 and 137-146); nothing when `str` is empty. -/
def flush {node : Type} (str : List Char) (result : List (element_t node)) :
    List (element_t node) :=
  if str ≠ [] then result ++ [{ type := some .STRING, chars := str }] else result

/-- The `for` loop of `parse_elements` (lines 45-135), one iteration per unit of
`fuel`: `p` is the cursor, `str` the pending literal run and `result` the chain
built so far. The `p++` of the loop header after a directive that stopped on the
terminator moves the cursor behind the text, and the read that follows is out of
bounds. -/
def parse_loop {node : Type} (parse_expr : List Char → Except fault node) :
    Nat → List Char → List Char → List (element_t node) →
    Except fault (List (element_t node))
  | 0, _, _, _ => .error .out_of_fuel
  | fuel + 1, p, str, result =>
    if deref p = NUL then
      .ok (flush str result)
    else if deref p = '%' then
      match parse_directive parse_expr p.tail with
      | .error e => .error e
      | .ok (current, p) =>
        match p with
        | [] => .error .out_of_bounds
        | _ :: p => parse_loop parse_expr fuel p [] (flush str result ++ [current])
    else
      parse_loop parse_expr fuel p.tail (str ++ [deref p]) result

/-- The function `format_t::parse_elements` (format.cc, lines 39-149): the
element chain of the format `fmt`, as a list in the order of the `next`
pointers, or the fault that ends the compilation. -/
def parse_elements {node : Type} (parse_expr : List Char → Except fault node)
    (fmt : List Char) : Except fault (List (element_t node)) :=
  parse_loop parse_expr (fmt.length + 1) fmt [] []

/-- A stand-in for the expression parser in examples: the expression of a text
is the text itself. -/
def text_expr (s : List Char) : Except fault (List Char) := .ok s

/-! ## Directives as texts -/

/-- The optional parts of a directive in front of its dispatch character: the
`-`, the digits of the minimum width, and the `.` with the digits of the maximum
width. -/
structure modifiers where
  minus : Bool := false
  min : List Char := []
  max : Option (List Char) := none
  deriving DecidableEq, Repr

/-- The text of the modifiers, `[-][digits][.digits]`. -/
def modifiers.text (m : modifiers) : List Char :=
  (if m.minus then ['-'] else []) ++ m.min
    ++ (match m.max with
        | none => []
        | some x => '.' :: x)

/-- The width parts of the modifiers are made of decimal digits. -/
def modifiers.wf (m : modifiers) : Bool :=
  m.min.all Char.isDigit && (m.max.getD []).all Char.isDigit

/-- The width a digit text stands for once stored in an `unsigned int`; the
empty text leaves the 0 of a fresh element. -/
def width_of (num : List Char) : Nat :=
  if num ≠ [] then atol num % UINT_SIZE else 0

/-- The element the modifiers describe, before a kind is assigned: the minimum
width is the maximum width when it is 0 itself. -/
def modifiers.element {node : Type} (m : modifiers) : element_t node :=
  { align_left := m.minus
    min_width :=
      if width_of m.min = 0 then width_of (m.max.getD []) else width_of m.min
    max_width := width_of (m.max.getD []) }

/-- A character that can follow the modifiers without being read as one of
them: no `-`, no `.`, no decimal digit. -/
def ends_modifiers (c : Char) : Bool :=
  c != '-' && c != '.' && !c.isDigit

/-- A literal run: a text without `%` and without terminator. -/
def literal (l : List Char) : Bool :=
  l.all (fun c => c != '%' && c != NUL)

/-- The digits of `n` in front of `acc`, most significant digit first; `fuel`
bounds the number of digits. -/
def decimal_loop : Nat → Nat → List Char → List Char
  | 0, _, acc => acc
  | fuel + 1, n, acc =>
    if n = 0 then acc
    else decimal_loop fuel (n / 10) (Nat.digitChar (n % 10) :: acc)

/-- The decimal numeral of a natural number, most significant digit first (the
empty text for 0). -/
def decimal (n : Nat) : List Char :=
  decimal_loop n n []

/-- The part of a directive behind the modifiers: `%`, an expression in
parentheses, a date pattern in square brackets, or a single letter. -/
inductive spec_t where
  | percent
  | expr (text : List Char)
  | date (text : List Char)
  | letter (c : Char)
  deriving DecidableEq, Repr

/-- The kinds of the single-letter directives, as listed in the description of
the format compiler: `d` is a date and `X C p n N o t T _` are the built-in
fields. Other characters have no kind. -/
def letter_kind (c : Char) : Option kind_t :=
  if c = 'd' then some .DATE_STRING
  else if c = 'X' then some .CLEARED
  else if c = 'C' then some .CODE
  else if c = 'p' then some .PAYEE
  else if c = 'n' then some .ACCOUNT_NAME
  else if c = 'N' then some .ACCOUNT_FULLNAME
  else if c = 'o' then some .OPT_AMOUNT
  else if c = 't' then some .VALUE
  else if c = 'T' then some .TOTAL
  else if c = '_' then some .SPACER
  else none

/-- The text of the part behind the modifiers. -/
def spec_t.text : spec_t → List Char
  | .percent => ['%']
  | .expr e => '(' :: (e ++ [')'])
  | .date e => '[' :: (e ++ [']'])
  | .letter c => [c]

/-- A directive: modifiers and the part behind them. -/
structure directive where
  mods : modifiers := {}
  spec : spec_t
  deriving DecidableEq, Repr

/-- The text of a directive, `%[-][digits][.digits]spec`. -/
def directive.text (d : directive) : List Char :=
  '%' :: (d.mods.text ++ d.spec.text)

/-- A well-formed directive: the widths are digits, an expression holds neither
`)` nor the terminator and is accepted by the expression parser, a date pattern
holds neither `]` nor the terminator, and a letter is one with a kind. -/
def directive.wf {node : Type} (parse_expr : List Char → Except fault node)
    (d : directive) : Bool :=
  d.mods.wf &&
    (match d.spec with
     | .percent => true
     | .expr e =>
       !e.contains ')' && !e.contains NUL &&
         (match parse_expr e with
          | .ok _ => true
          | .error _ => false)
     | .date e => !e.contains ']' && !e.contains NUL
     | .letter c => (letter_kind c).isSome)

/-- The element a directive stands for: alignment and widths from the
modifiers, kind and content from the part behind them. -/
def directive.element {node : Type} (parse_expr : List Char → Except fault node)
    (d : directive) : element_t node :=
  let current : element_t node := d.mods.element
  match d.spec with
  | .percent => { current with type := some .STRING, chars := ['%'] }
  | .expr e =>
    { current with
      type := some .VALUE_EXPR
      val_expr :=
        match parse_expr e with
        | .ok v => some v
        | .error _ => none }
  | .date e => { current with type := some .DATE_STRING, chars := e }
  | .letter c =>
    { current with
      type := letter_kind c
      chars := if c = 'd' then "%Y/%m/%d".toList else [] }

/-- The text `L0 D1 L1 ... Dn Ln` without `L0`: each directive followed by its
literal run. -/
def segments_text (segs : List (directive × List Char)) : List Char :=
  (segs.map (fun s => s.1.text ++ s.2)).flatten

/-- The elements of `D1 L1 ... Dn Ln`: for each directive its element, followed
by the `STRING` element of its literal run when that run is not empty. -/
def segments_elements {node : Type} (parse_expr : List Char → Except fault node)
    (segs : List (directive × List Char)) : List (element_t node) :=
  (segs.map (fun s => s.1.element parse_expr :: flush s.2 [])).flatten

/-! ## Rows -/

/-- Modelled from the spec: `transaction_t` is declared in `ledger.h`, which is
not part of the sources. The fields are those `format_elements` reads: amount,
cost, note and the flags virtual, balance and automatically generated (the flag
constants are distinct bits, each is one boolean here). `addr` is the address of
the object: two pointers are equal when the addresses are. -/
structure transaction_t (amount_t : Type) where
  addr : Nat
  amount : amount_t
  cost : amount_t
  virt : Bool := false
  balance : Bool := false
  auto : Bool := false
  note : List Char := []
  deriving DecidableEq, Repr

/-- Modelled from the spec: `entry_t` is declared in `ledger.h`, which is not
part of the sources. The fields are those `format_elements` reads: the date
(`-1` when there is none), whether the state is cleared, the code, the payee and
the list of the transactions. -/
structure entry_t (amount_t : Type) where
  date : Int := -1
  cleared : Bool := false
  code : List Char := []
  payee : List Char := []
  transactions : List (transaction_t amount_t) := []
  deriving DecidableEq, Repr

/-- Modelled from the spec: `account_t` is declared in `ledger.h`, which is not
part of the sources. The fields are those `format.cc` reads: name, the flag
displayed, depth, total, and the map of the direct children in the order of its
iteration, each child given by its key and its total. The parent is not a
field: a pointer to an account is the list made of the account and of its
ancestors up to the root, and the null pointer is the empty list. -/
structure account_t (balance_t : Type) where
  name : List Char := []
  displayed : Bool := false
  depth : Nat := 0
  total : balance_t
  accounts : List (List Char × balance_t) := []
  deriving DecidableEq, Repr

/-- Modelled from the spec: `details_t` is declared in `ledger.h`, which is not
part of the sources. A row refers to an entry, a transaction and an account, each
of which may be absent. -/
structure details_t (amount_t balance_t : Type) where
  entry : Option (entry_t amount_t) := none
  xact : Option (transaction_t amount_t) := none
  account : List (account_t balance_t) := []

/-! ## Output streams -/

/-- The state of a `std::ostream` that `format_elements` uses: the text written,
the pending field width and the adjustment (`std::left` or `std::right`). -/
structure ostream where
  text : List Char := []
  width : Nat := 0
  left : Bool := false
  deriving DecidableEq, Repr

/-- The insertion `out << s` of a text: the text is padded with spaces to the
pending field width, on the side the adjustment leaves free, and the field
width is reset. -/
def ostream.write (out : ostream) (s : List Char) : ostream :=
  let pad := List.replicate (out.width - s.length) ' '
  { out with
    text := out.text ++ (if out.left then s ++ pad else pad ++ s)
    width := 0 }

/-- The collaborators of the renderer that live outside `format.cc`. -/
structure collaborators (node amount_t balance_t : Type) where
  /-- The call `val_expr->compute(value, details)`. -/
  compute : node → details_t amount_t balance_t → balance_t
  /-- The call `compute_value(value, details)`. -/
  compute_value : details_t amount_t balance_t → balance_t
  /-- The call `compute_total(value, details)`. -/
  compute_total : details_t amount_t balance_t → balance_t
  /-- The call `value.write(out, min_width, max_width)`. -/
  balance_write : balance_t → ostream → Nat → Nat → ostream
  /-- The bytes `std::strftime` puts into `buf` for a pattern and a date. -/
  strftime : List Char → Int → List Char
  /-- The insertion `stream << amount`. -/
  amount_print : amount_t → ostream → ostream
  /-- The conversion `std::string(amount)`. -/
  amount_string : amount_t → List Char
  /-- The call `account->fullname()`. -/
  fullname : List (account_t balance_t) → List Char

/-! ## Account names -/

/-- The loop of `partial_account_name` (lines 21-31): `name` is the name built
so far. -/
def partial_account_name_loop {balance_t : Type} :
    List (account_t balance_t) → List Char → List Char
  | acct :: parent :: rest, name =>
    if acct.displayed then name
    else
      partial_account_name_loop (parent :: rest)
        (if name = [] then acct.name else acct.name ++ ':' :: name)
  | _, name => name

/-- The function `partial_account_name` (format.cc, lines 17-34). -/
def partial_account_name {balance_t : Type} (account : List (account_t balance_t)) :
    List Char :=
  partial_account_name_loop account []

/-! ## The renderer -/

/-- One iteration of the loop of the `OPT_AMOUNT` arm over the transactions of
the entry (lines 249-255), on the state made of `xacts_real_count` (an
`unsigned int`), `first` and `last`. -/
def count_real_step {amount_t : Type}
    (st : Nat × Option (transaction_t amount_t) × Option (transaction_t amount_t))
    (i : transaction_t amount_t) :
    Nat × Option (transaction_t amount_t) × Option (transaction_t amount_t) :=
  if !i.auto then
    ((st.1 + 1) % UINT_SIZE, (if st.2.1.isNone then some i else st.2.1), some i)
  else st

/-- The loop of the `OPT_AMOUNT` arm over the transactions of the entry (lines
241-255): the number of those not flagged as automatically generated, the first
of them and the last of them. -/
def count_real {amount_t : Type} (transactions : List (transaction_t amount_t)) :
    Nat × Option (transaction_t amount_t) × Option (transaction_t amount_t) :=
  transactions.foldl count_real_step (0, none, none)

/-- The `OPT_AMOUNT` arm of `format_elements` (lines 229-270). -/
def format_opt_amount {node amount_t balance_t : Type} [DecidableEq amount_t]
    [Neg amount_t] [Div amount_t] (env : collaborators node amount_t balance_t)
    (details : details_t amount_t balance_t) (out : ostream) : Except fault ostream :=
  match details.xact with
  | none => .ok out
  | some xact =>
    let shown : Except fault (Option (List Char)) :=
      if xact.amount ≠ xact.cost then
        let unit_cost := xact.cost / xact.amount
        let stream := env.amount_print xact.amount {}
        let stream := stream.write " @ ".toList
        let stream := env.amount_print unit_cost stream
        .ok (some stream.text)
      else
        match details.entry with
        | none => .error .out_of_bounds
        | some entry =>
          let (xacts_real_count, first, last) := count_real entry.transactions
          if xacts_real_count = 2 then
            match first, last with
            | some first, some last =>
              if xact.addr = last.addr ∧ first.amount = - last.amount then
                .ok (some [])
              else .ok none
            | _, _ => .error .out_of_bounds
          else .ok none
    match shown with
    | .error e => .error e
    | .ok shown =>
      let disp := match shown with
        | some disp => disp
        | none => env.amount_string xact.amount
      let out := out.write disp
      if xact.note ≠ [] then
        .ok ((out.write "  ; ".toList).write xact.note)
      else .ok out

/-- The `SPACER` arm of `format_elements` (lines 288-298). -/
def format_spacer {node balance_t : Type} (elem : element_t node) :
    List (account_t balance_t) → ostream → ostream
  | [], out => out
  | acct :: parent, out =>
    if acct.displayed then
      let out :=
        if elem.min_width > 0 ∨ elem.max_width > 0 then
          { out with
            width := if elem.min_width > elem.max_width then elem.min_width
                     else elem.max_width }
        else out
      format_spacer elem parent (out.write [' '])
    else format_spacer elem parent out

/-- The body of the loop of `format_elements` for one element (lines 155-303).
`buf255` is the byte that `truncated` finds in `buf[255]`. An element whose kind
was never assigned has no defined rendering; it is reported as the failed
assertion of the `default` arm. -/
def format_element {node amount_t balance_t : Type} [DecidableEq amount_t]
    [Neg amount_t] [Div amount_t] (env : collaborators node amount_t balance_t)
    (buf255 : Char) (elem : element_t node) (details : details_t amount_t balance_t)
    (out : ostream) : Except fault ostream :=
  let out := { out with left := elem.align_left }
  let out := if elem.min_width > 0 then { out with width := elem.min_width } else out
  let width := if elem.max_width > 0 then elem.max_width else elem.min_width
  match elem.type with
  | some .STRING => .ok (out.write elem.chars)
  | some .VALUE_EXPR =>
    match elem.val_expr with
    | none => .error .out_of_bounds
    | some val_expr =>
      .ok (env.balance_write (env.compute val_expr details) out elem.min_width width)
  | some .DATE_STRING =>
    match details.entry with
    | some entry =>
      if entry.date ≠ -1 then
        let buf := c_str (env.strftime (c_str elem.chars) entry.date)
        if elem.max_width = 0 then .ok (out.write buf)
        else
          match truncated buf255 buf elem.max_width with
          | .error e => .error e
          | .ok s => .ok (out.write s)
      else .ok (out.write [' '])
    | none => .ok (out.write [' '])
  | some .CLEARED =>
    match details.entry with
    | some entry =>
      if entry.cleared then .ok (out.write "* ".toList) else .ok (out.write [])
    | none => .ok (out.write [])
  | some .CODE =>
    match details.entry with
    | some entry =>
      if entry.code ≠ [] then
        .ok (((out.write ['(']).write entry.code).write ") ".toList)
      else .ok (out.write [])
    | none => .ok (out.write [])
  | some .PAYEE =>
    match details.entry with
    | some entry =>
      if elem.max_width = 0 then .ok (out.write entry.payee)
      else
        match truncated buf255 entry.payee elem.max_width with
        | .error e => .error e
        | .ok s => .ok (out.write s)
    | none => .ok out
  | some .ACCOUNT_NAME | some .ACCOUNT_FULLNAME =>
    if !details.account.isEmpty then
      let name :=
        if elem.type = some .ACCOUNT_FULLNAME then env.fullname details.account
        else partial_account_name details.account
      let name : Except fault (List Char) :=
        if elem.max_width > 0 then truncated buf255 name elem.max_width
        else .ok name
      match name with
      | .error e => .error e
      | .ok name =>
        let name :=
          match details.xact with
          | some xact =>
            if xact.virt then
              if xact.balance then '[' :: (name ++ [']'])
              else '(' :: (name ++ [')'])
            else name
          | none => name
        .ok (out.write name)
    else .ok (out.write [' '])
  | some .OPT_AMOUNT => format_opt_amount env details out
  | some .VALUE =>
    .ok (env.balance_write (env.compute_value details) out elem.min_width width)
  | some .TOTAL =>
    .ok (env.balance_write (env.compute_total details) out elem.min_width width)
  | some .SPACER => .ok (format_spacer elem details.account out)
  | none => .error .assertion

/-- The function `format_t::format_elements` (format.cc, lines 151-305): the
elements are rendered one after the other on the same stream. -/
def format_elements {node amount_t balance_t : Type} [DecidableEq amount_t]
    [Neg amount_t] [Div amount_t] (env : collaborators node amount_t balance_t)
    (buf255 : Char) :
    List (element_t node) → details_t amount_t balance_t → ostream →
    Except fault ostream
  | [], _, out => .ok out
  | elem :: next, details, out =>
    match format_element env buf255 elem details out with
    | .error e => .error e
    | .ok out => format_elements env buf255 next details out

/-! ## The account row driver -/

/-- The loop of `format_account::operator()` over the direct children (lines
418-429), from the state `(counted, display)`: a child without total is skipped,
and the loop stops with `display` set at the first child whose total differs
from `total` or that comes after a counted one. `nonzero` is the conversion of
a total to `bool`. -/
def count_children {balance_t : Type} [DecidableEq balance_t]
    (nonzero : balance_t → Bool) (total : balance_t) :
    List (List Char × balance_t) → Nat × Bool → Nat × Bool
  | [], st => st
  | i :: rest, (counted, display) =>
    if !nonzero i.2 then count_children nonzero total rest (counted, display)
    else if i.2 ≠ total ∨ counted > 0 then (counted, true)
    else count_children nonzero total rest (counted + 1, display)

/-- The test `counted == 1 && ! display` of line 431 after the loop over the
children: the account is redundant. -/
def suppressed {balance_t : Type} [DecidableEq balance_t]
    (nonzero : balance_t → Bool) (total : balance_t)
    (accounts : List (List Char × balance_t)) : Bool :=
  let (counted, display) := count_children nonzero total accounts (0, false)
  counted = 1 && !display

/-- The decision of `format_account::operator()` to render the account (lines
413-434): the value of `output && (max_depth == 0 || account->depth <=
max_depth)` when the outer condition holds, and `false` when it does not.
`disp_pred` is the row-selection predicate `disp_pred_functor`. -/
def account_output {balance_t : Type} [DecidableEq balance_t]
    (nonzero : balance_t → Bool) (disp_pred : List (account_t balance_t) → Bool)
    (account : account_t balance_t) (parent : List (account_t balance_t))
    (max_depth : Nat) (report_top : Bool) : Bool :=
  if (report_top || !parent.isEmpty) && disp_pred (account :: parent) then
    let output := if suppressed nonzero account.total account.accounts then false else true
    output && (max_depth = 0 || account.depth ≤ max_depth)
  else false

/-- The function `format_account::operator()` (format.cc, lines 402-439) on the
account `account` with the ancestors `parent`: the stream and the account after
the call. When the account is rendered, the format is evaluated on the row of
the account and the account is flagged displayed. -/
def format_account {node amount_t balance_t : Type} [DecidableEq amount_t]
    [Neg amount_t] [Div amount_t] [DecidableEq balance_t]
    (env : collaborators node amount_t balance_t) (buf255 : Char)
    (nonzero : balance_t → Bool) (disp_pred : List (account_t balance_t) → Bool)
    (format : List (element_t node)) (out : ostream)
    (account : account_t balance_t) (parent : List (account_t balance_t))
    (max_depth : Nat) (report_top : Bool) :
    Except fault (ostream × account_t balance_t) :=
  if account_output nonzero disp_pred account parent max_depth report_top then
    match format_elements env buf255 format { account := account :: parent } out with
    | .error e => .error e
    | .ok out => .ok (out, { account with displayed := true })
  else .ok (out, account)

/-- The condition of the account suppression in the words of the description:
exactly one of the direct children has a total that is not zero, and the total
of that child equals the total of the account. -/
def lone_matching_child {balance_t : Type} [DecidableEq balance_t]
    (nonzero : balance_t → Bool) (total : balance_t)
    (accounts : List (List Char × balance_t)) : Bool :=
  match accounts.filter (fun i => nonzero i.2) with
  | [child] => child.2 = total
  | _ => false

/-! ## The transaction row driver -/

/-- Modelled from the spec: the fields of `transaction_t` (declared in
`ledger.h`, which is not part of the sources) that `format_transaction` uses
besides those the renderer reads: the running total, the index, the flag
displayed and the pointer to the entry. The running total is an amount, and
`total += *xact` adds the amount of the transaction to it. `entry` is the
pointer `xact->entry`: the address of the entry, or `none` for the null
pointer. -/
structure register_transaction_t (amount_t : Type) extends transaction_t amount_t where
  total : amount_t
  index : Nat := 0
  displayed : Bool := false
  entry : Option Nat
  deriving DecidableEq, Repr

/-- The members `last_entry` and `last_xact` of `format_transaction`, both null
in a fresh object. `last_xact` points to the transaction of the last call that
rendered a row; each call is given an object of its own, so the object it points
to is as that call left it. -/
structure format_transaction (amount_t : Type) where
  last_entry : Option Nat := none
  last_xact : Option (register_transaction_t amount_t) := none
  deriving DecidableEq, Repr

/-- The statements `xact->amount.negate(); xact->cost.negate();` (lines 354-355
and 393-394). -/
def negate_xact {amount_t : Type} [Neg amount_t]
    (xact : register_transaction_t amount_t) : register_transaction_t amount_t :=
  { xact with amount := - xact.amount, cost := - xact.cost }

/-- Lines 350-359 of `format_transaction::operator()`: the running total of the
previous row is added, amount and cost are negated for an inverted report, the
amount is added to the running total, and the index is assigned. -/
def accumulate {amount_t : Type} [Add amount_t] [Neg amount_t] (inverted : Bool)
    (st : format_transaction amount_t) (xact : register_transaction_t amount_t) :
    register_transaction_t amount_t :=
  let xact :=
    match st.last_xact with
    | some last_xact => { xact with total := xact.total + last_xact.total }
    | none => xact
  let xact := if inverted then negate_xact xact else xact
  let xact := { xact with total := xact.total + xact.amount }
  { xact with
    index :=
      match st.last_xact with
      | some last_xact => last_xact.index + 1
      | none => 0 }

/-- What one call of `format_transaction::operator()` leaves: the members of the
object, the transaction, and the row it rendered, if any: whether the first-line
format was used (otherwise the continuation format) and the transaction as it
was when `format_elements` was called. -/
structure call_result (amount_t : Type) where
  state : format_transaction amount_t
  xact : register_transaction_t amount_t
  shown : Option (Bool × register_transaction_t amount_t)
  deriving DecidableEq, Repr

/-- The function `format_transaction::operator()` (format.cc, lines 348-399) in
non-collapsed mode, without the stream. `disp_pred` is the row-selection
predicate `disp_pred_functor`. -/
def format_transaction_call {amount_t : Type} [Add amount_t] [Neg amount_t]
    (disp_pred : register_transaction_t amount_t → Bool) (inverted : Bool)
    (st : format_transaction amount_t) (xact : register_transaction_t amount_t) :
    call_result amount_t :=
  let xact := accumulate inverted st xact
  if !disp_pred xact then
    { state := st, xact := xact, shown := none }
  else
    let xact := { xact with displayed := true }
    let first := decide (st.last_entry ≠ xact.entry)
    let row := xact
    let xact := if inverted then negate_xact xact else xact
    { state := { last_entry := xact.entry, last_xact := some xact }
      xact := xact
      shown := some (first, row) }

/-- The output of one call of `format_transaction::operator()` (lines 385-389):
the row, if any, is rendered with `first_line_format` or `next_lines_format`.
`details` is the constructor `details_t(xact)`, which is declared in `ledger.h`
and not part of the sources. -/
def format_transaction_output {node amount_t balance_t : Type}
    [DecidableEq amount_t] [Neg amount_t] [Div amount_t]
    (env : collaborators node amount_t balance_t) (buf255 : Char)
    (first_line_format next_lines_format : List (element_t node))
    (details : register_transaction_t amount_t → details_t amount_t balance_t)
    (r : call_result amount_t) (out : ostream) : Except fault ostream :=
  match r.shown with
  | none => .ok out
  | some (first, row) =>
    format_elements env buf255 (if first then first_line_format else next_lines_format)
      (details row) out

/-- The results of the calls of `format_transaction::operator()` on a sequence
of transactions, in order, from the members `st`. -/
def feed {amount_t : Type} [Add amount_t] [Neg amount_t]
    (disp_pred : register_transaction_t amount_t → Bool) (inverted : Bool) :
    format_transaction amount_t → List (register_transaction_t amount_t) →
    List (call_result amount_t)
  | _, [] => []
  | st, xact :: rest =>
    let r := format_transaction_call disp_pred inverted st xact
    r :: feed disp_pred inverted r.state rest

/-- The amount a transaction adds to the running total: negated when the report
is inverted. -/
def signed_amount {amount_t : Type} [Neg amount_t] (inverted : Bool)
    (xact : register_transaction_t amount_t) : amount_t :=
  if inverted then - xact.amount else xact.amount

/-- The pointer to the entry of the most recent transaction that was displayed
among the results `rs`; the null pointer when none was displayed. -/
def last_displayed_entry {amount_t : Type} (rs : List (call_result amount_t)) :
    Option Nat :=
  match (rs.filter (fun r => r.shown.isSome)).getLast? with
  | some r => r.xact.entry
  | none => none

/-- The function `format_transaction::operator()` (format.cc, lines 348-399) in
non-collapsed mode, with the stream: what the call leaves, and the stream after
the row, if any, was rendered. -/
def format_transaction_operator {node amount_t balance_t : Type}
    [DecidableEq amount_t] [Add amount_t] [Neg amount_t] [Div amount_t]
    (env : collaborators node amount_t balance_t) (buf255 : Char)
    (first_line_format next_lines_format : List (element_t node))
    (details : register_transaction_t amount_t → details_t amount_t balance_t)
    (disp_pred : register_transaction_t amount_t → Bool) (inverted : Bool)
    (st : format_transaction amount_t) (xact : register_transaction_t amount_t)
    (out : ostream) : Except fault (call_result amount_t × ostream) :=
  let r := format_transaction_call disp_pred inverted st xact
  match format_transaction_output env buf255 first_line_format next_lines_format
      details r out with
  | .error e => .error e
  | .ok out => .ok (r, out)

/-- The calls of `format_transaction::operator()` on a sequence of
transactions, in order, from the members `st` and on the stream `out`: the
results of the calls and the stream after the last of them. -/
def register_rows {node amount_t balance_t : Type}
    [DecidableEq amount_t] [Add amount_t] [Neg amount_t] [Div amount_t]
    (env : collaborators node amount_t balance_t) (buf255 : Char)
    (first_line_format next_lines_format : List (element_t node))
    (details : register_transaction_t amount_t → details_t amount_t balance_t)
    (disp_pred : register_transaction_t amount_t → Bool) (inverted : Bool) :
    format_transaction amount_t → List (register_transaction_t amount_t) → ostream →
    Except fault (List (call_result amount_t) × ostream)
  | _, [], out => .ok ([], out)
  | st, xact :: rest, out =>
    match format_transaction_operator env buf255 first_line_format next_lines_format
        details disp_pred inverted st xact out with
    | .error e => .error e
    | .ok (r, out) =>
      match register_rows env buf255 first_line_format next_lines_format details
          disp_pred inverted r.state rest out with
      | .error e => .error e
      | .ok (rs, out) => .ok (r :: rs, out)

/-- The output of a register in the words of the description, for the results
`rs` that come after the results `prev`: a transaction that failed the
row-selection predicate renders nothing, and one that passed it is rendered
once, on the row `format_elements` was given, with the first-line format when
its entry differs from that of the most recent transaction displayed before it
and with the continuation format when it does not. -/
def expected_rows {node amount_t balance_t : Type}
    [DecidableEq amount_t] [Neg amount_t] [Div amount_t]
    (env : collaborators node amount_t balance_t) (buf255 : Char)
    (first_line_format next_lines_format : List (element_t node))
    (details : register_transaction_t amount_t → details_t amount_t balance_t) :
    List (call_result amount_t) → List (call_result amount_t) → ostream →
    Except fault ostream
  | _, [], out => .ok out
  | prev, r :: rest, out =>
    match r.shown with
    | none =>
      expected_rows env buf255 first_line_format next_lines_format details
        (prev ++ [r]) rest out
    | some (_, row) =>
      match format_elements env buf255
          (if last_displayed_entry prev ≠ r.xact.entry then first_line_format
           else next_lines_format) (details row) out with
      | .error e => .error e
      | .ok out =>
        expected_rows env buf255 first_line_format next_lines_format details
          (prev ++ [r]) rest out

/-- A stand-in for the constructor `details_t(xact)` in examples: the row of a
transaction refers to the transaction alone. -/
def xact_details (xact : register_transaction_t Int) : details_t Int Int :=
  { xact := some xact.totransaction_t }

/-- Three transactions for examples: two of one entry, with the amounts 100 and
-100, and one of another entry, with the amount 5. -/
def sample_xacts : List (register_transaction_t Int) :=
  [{ addr := 1, amount := 100, cost := 100, total := 0, entry := some 1 },
   { addr := 2, amount := -100, cost := -100, total := 0, entry := some 1 },
   { addr := 3, amount := 5, cost := 5, total := 0, entry := some 2 }]

/-! ## Account names and spacers in the words of the description -/

/-- The names that make up the partial name of an account, in the words of the
description: those of the account and of its successive ancestors, taken upward
and stopping before the first node that is flagged displayed or is the root,
listed outermost first. -/
def partial_name_parts {balance_t : Type} (account : List (account_t balance_t)) :
    List (List Char) :=
  ((account.dropLast.takeWhile (fun a => !a.displayed)).map (fun a => a.name)).reverse

/-- One field of a spacer: a single space padded to the larger of the two widths
of the element. -/
def spacer_field {node : Type} (elem : element_t node) : List Char :=
  List.replicate (max 1 (max elem.min_width elem.max_width)) ' '

/-- A name between the brackets of a virtual transaction: square brackets when
the transaction has the balance flag, parentheses when it has not. -/
def bracketed (balance : Bool) (name : List Char) : List Char :=
  if balance then '[' :: (name ++ [']']) else '(' :: (name ++ [')'])

/-! ## Stand-ins for the collaborators in examples -/

/-- The text of an integer amount: a minus sign when it is negative, and the
decimal numeral of its absolute value. -/
def int_text (a : Int) : List Char :=
  (if a < 0 then ['-'] else []) ++ decimal a.natAbs

/-- Collaborators for examples, with integers as amounts and as balances: a row
is valued by the amount of its transaction, and a balance is written as its
text. -/
def int_env : collaborators (List Char) Int Int where
  compute := fun _ details => (details.xact.map (fun x => x.amount)).getD 0
  compute_value := fun details => (details.xact.map (fun x => x.amount)).getD 0
  compute_total := fun details => (details.xact.map (fun x => x.cost)).getD 0
  balance_write := fun value out _ _ => out.write (int_text value)
  strftime := fun pattern _ => pattern
  amount_print := fun a out => out.write (int_text a)
  amount_string := int_text
  fullname := fun account =>
    (account.reverse.map (fun a => a.name)).intersperse [':'] |>.flatten

end ledger

open ledger

set_option maxRecDepth 100000

namespace ledger

theorem c_str_of_not_mem (a : List Char) (h : NUL ∉ a) : c_str a = a := by
  unfold c_str
  rw [List.takeWhile_eq_self_iff]
  intro c hc
  have : c ≠ NUL := fun e => h (e ▸ hc)
  simpa using this

theorem c_str_append_nul (a b : List Char) (h : NUL ∉ a) :
    c_str (a ++ NUL :: b) = a := by
  unfold c_str
  induction a with
  | nil => simp [List.takeWhile]
  | cons x xs ih =>
    have hx : x ≠ NUL := fun e => h (by simp [e])
    have hxs : NUL ∉ xs := fun e => h (by simp [e])
    have hb : (x != NUL) = true := by simpa using hx
    simp [List.takeWhile, hb, ih hxs]

theorem strncpy_memset (buf255 : Char) (s : List Char) (h : NUL ∉ s)
    (hl : s.length ≤ 256) :
    strncpy (memset_buf buf255) s s.length
      = .ok (s ++ (memset_buf buf255).drop s.length) := by
  unfold strncpy
  have : (memset_buf buf255).length = 256 := by simp [memset_buf]
  rw [if_pos (by omega), c_str_of_not_mem s h]
  simp

theorem memset_buf_drop (buf255 : Char) (n : Nat) (h : n ≤ 254) :
    (memset_buf buf255).drop n
      = NUL :: (List.replicate (254 - n) NUL ++ [buf255]) := by
  unfold memset_buf
  rw [List.drop_append_of_le_length (by simp; omega), List.drop_replicate]
  have : 255 - n = (254 - n) + 1 := by omega
  rw [this, List.replicate_succ]
  simp

/-- On a text without terminator and of at most 256 bytes, and for a width below
255 that is at least 2 or not exceeded by the text, `truncated` returns the text
itself when it fits and otherwise its first `width - 2` characters followed by
two dots. -/
theorem truncated_eq (buf255 : Char) (s : List Char) (w : Nat)
    (hnul : NUL ∉ s) (hlen : s.length ≤ 256) (hw : w < 255)
    (h2 : 2 ≤ w ∨ s.length ≤ w) :
    truncated buf255 s w
      = .ok (if s.length ≤ w then s else s.take (w - 2) ++ ['.', '.']) := by
  unfold truncated
  rw [if_pos (by omega), strncpy_memset buf255 s hnul hlen]
  simp only []
  by_cases hfit : s.length ≤ w
  · rw [if_pos hfit, memset_buf_drop buf255 s.length (by omega)]
    have hget : (s ++ NUL :: (List.replicate (254 - s.length) NUL ++ [buf255])).getD w NUL
        = NUL := by
      rw [List.getD_eq_getElem?_getD, List.getElem?_append_right hfit]
      rcases Nat.eq_zero_or_pos (w - s.length) with h0 | hpos
      · simp [h0]
      · obtain ⟨k, hk⟩ := Nat.exists_eq_succ_of_ne_zero (Nat.pos_iff_ne_zero.mp hpos)
        rw [hk, List.getElem?_cons_succ]
        have hk2 : k < 254 - s.length := by omega
        rw [List.getElem?_append_left (by simpa using hk2)]
        simp [hk2]
    rw [hget]
    simp [string_of_buf, c_str_append_nul _ _ hnul]
  · rw [if_neg hfit]
    have hwl : w < s.length := by omega
    have hw2 : 2 ≤ w := by omega
    have hget : (s ++ (memset_buf buf255).drop s.length).getD w NUL = s[w] := by
      rw [List.getD_eq_getElem?_getD, List.getElem?_append_left hwl]
      simp [hwl]
    have hne : s[w] ≠ NUL := fun e => hnul (e ▸ List.getElem_mem hwl)
    rw [hget]
    have hidx : (w + UINT_SIZE - 2) % UINT_SIZE = w - 2 := by
      unfold UINT_SIZE; omega
    rw [hidx]
    have hlen2 : (s ++ (memset_buf buf255).drop s.length).length = 256 := by
      simp [memset_buf]; omega
    simp only [bne_iff_ne, ne_eq, hne, not_false_eq_true, if_true, strcpy_dots]
    rw [if_pos (by omega)]
    simp only [string_of_buf]
    have htake : (s ++ (memset_buf buf255).drop s.length).take (w - 2) = s.take (w - 2) := by
      rw [List.take_append_of_le_length (by omega)]
    rw [htake]
    have hmem : NUL ∉ s.take (w - 2) ++ ['.', '.'] := by
      intro hm
      rcases List.mem_append.mp hm with hm | hm
      · exact hnul (List.mem_of_mem_take hm)
      · revert hm; decide
    have hshape : s.take (w - 2) ++ ['.', '.', NUL]
          ++ (s ++ (memset_buf buf255).drop s.length).drop (w - 2 + 3)
        = (s.take (w - 2) ++ ['.', '.'])
          ++ NUL :: (s ++ (memset_buf buf255).drop s.length).drop (w - 2 + 3) := by
      simp
    rw [hshape, if_pos (by simp), c_str_append_nul _ _ hmem]

/-! ## The phases of a directive -/

theorem digit_here_of_isDigit (c : Char) (h : c.isDigit = true) :
    digit_here c = true := by
  have : c ≠ NUL := by
    intro e; rw [e] at h; revert h; decide
  simp [digit_here, h, this]

theorem digit_here_of_ends (c : Char) (h : ends_modifiers c = true) :
    digit_here c = false := by
  simp only [ends_modifiers, Bool.and_eq_true, Bool.not_eq_true'] at h
  simp [digit_here, h.2]

theorem takeWhile_run {f : Char → Bool} (ds : List Char) (c : Char)
    (rest : List Char) (h : ∀ a ∈ ds, f a = true) (hc : f c = false) :
    (ds ++ c :: rest).takeWhile f = ds := by
  rw [List.takeWhile_append_of_pos h, List.takeWhile_cons_of_neg (by simp [hc])]
  simp

theorem dropWhile_run {f : Char → Bool} (ds : List Char) (c : Char)
    (rest : List Char) (h : ∀ a ∈ ds, f a = true) (hc : f c = false) :
    (ds ++ c :: rest).dropWhile f = c :: rest := by
  rw [List.dropWhile_append_of_pos h, List.dropWhile_cons_of_neg (by simp [hc])]

theorem ite_zero_self (a : Nat) : (if a = 0 then 0 else a) = a := by
  split <;> simp_all

theorem deref_cons (c : Char) (r : List Char) : deref (c :: r) = c := rfl

theorem parse_flag_minus {node : Type} (cur : element_t node) (r : List Char) :
    parse_flag cur ('-' :: r) = ({ cur with align_left := true }, r) := by
  simp [parse_flag, deref]

theorem parse_flag_other {node : Type} (cur : element_t node) (p : List Char)
    (h : deref p ≠ '-') : parse_flag cur p = (cur, p) := by
  simp [parse_flag, h]

theorem parse_min_width_run {node : Type} (cur : element_t node)
    (ds : List Char) (c : Char) (rest : List Char)
    (h : ∀ a ∈ ds, a.isDigit = true) (hc : digit_here c = false) :
    parse_min_width cur (ds ++ c :: rest)
      = (if ds ≠ [] then { cur with min_width := atol ds % UINT_SIZE } else cur,
         c :: rest) := by
  have h2 : ∀ a ∈ ds, digit_here a = true := fun a ha => digit_here_of_isDigit a (h a ha)
  unfold parse_min_width
  simp only [takeWhile_run ds c rest h2 hc, dropWhile_run ds c rest h2 hc]
  split <;> rfl

theorem parse_max_width_run {node : Type} (cur : element_t node)
    (ds : List Char) (c : Char) (rest : List Char)
    (h : ∀ a ∈ ds, a.isDigit = true) (hc : digit_here c = false) :
    parse_max_width cur ('.' :: (ds ++ c :: rest))
      = (if ds ≠ [] then
           { cur with
             max_width := atol ds % UINT_SIZE
             min_width := if cur.min_width = 0 then atol ds % UINT_SIZE else cur.min_width }
         else cur, c :: rest) := by
  have h2 : ∀ a ∈ ds, digit_here a = true := fun a ha => digit_here_of_isDigit a (h a ha)
  unfold parse_max_width
  simp only [deref_cons, if_true, List.tail_cons,
    takeWhile_run ds c rest h2 hc, dropWhile_run ds c rest h2 hc]
  by_cases hds : ds = []
  · simp [hds]
  · by_cases hm : cur.min_width = 0 <;> simp [hds, hm]

theorem parse_max_width_other {node : Type} (cur : element_t node) (p : List Char)
    (h : deref p ≠ '.') : parse_max_width cur p = (cur, p) := by
  simp [parse_max_width, h]

/-- The three phases in front of the dispatch character read exactly the
modifiers and leave the element they describe. -/
theorem modifiers_parsed {node : Type} (m : modifiers) (c : Char)
    (rest : List Char) (hm : m.wf = true) (hc : ends_modifiers c = true) :
    (let r1 := parse_flag ({} : element_t node) (m.text ++ c :: rest)
     let r2 := parse_min_width r1.1 r1.2
     parse_max_width r2.1 r2.2) = (m.element, c :: rest) := by
  obtain ⟨minus, min, max⟩ := m
  simp only [modifiers.wf, Bool.and_eq_true, List.all_eq_true] at hm
  obtain ⟨hmin, hmax⟩ := hm
  have hc' := hc
  simp only [ends_modifiers, Bool.and_eq_true, bne_iff_ne, ne_eq] at hc'
  obtain ⟨⟨hc1, hc2⟩, hc3⟩ := hc'
  have hdc : digit_here c = false := digit_here_of_ends c hc
  have hdot : digit_here '.' = false := by decide
  -- the flag
  have hflag : ∀ (tl : List Char), deref (tl) ≠ '-' →
      parse_flag ({} : element_t node) ((if minus then ['-'] else []) ++ tl)
        = ({ align_left := minus }, tl) := by
    intro tl htl
    cases minus
    · simpa using parse_flag_other _ tl htl
    · simpa using parse_flag_minus _ tl
  cases max with
  | none =>
    have htl : deref (min ++ c :: rest) ≠ '-' := by
      cases min with
      | nil => simpa [deref] using hc1
      | cons d ds =>
        have := hmin d (by simp)
        intro e; simp only [List.cons_append, deref_cons] at e
        rw [e] at this; revert this; decide
    have := hflag (min ++ c :: rest) htl
    simp only [modifiers.text, List.append_nil, List.append_assoc] at this ⊢
    rw [this]
    simp only [parse_min_width_run _ min c rest hmin hdc]
    rw [parse_max_width_other _ _ (by simpa [deref] using hc2)]
    by_cases hmn : min = []
    · simp [modifiers.element, width_of, hmn]
    · simp [modifiers.element, width_of, hmn, ite_zero_self]
  | some x =>
    have hx : ∀ a ∈ x, a.isDigit = true := by simpa using hmax
    have htl : deref (min ++ '.' :: (x ++ c :: rest)) ≠ '-' := by
      cases min with
      | nil => simp [deref]
      | cons d ds =>
        have := hmin d (by simp)
        intro e; simp only [List.cons_append, deref_cons] at e
        rw [e] at this; revert this; decide
    have := hflag (min ++ '.' :: (x ++ c :: rest)) htl
    simp only [modifiers.text, List.append_assoc, List.cons_append] at this ⊢
    rw [this]
    simp only [parse_min_width_run _ min '.' (x ++ c :: rest) hmin hdot]
    rw [parse_max_width_run _ x c rest hx hdc]
    by_cases hmn : min = [] <;> by_cases hxn : x = [] <;>
      simp [modifiers.element, width_of, hmn, hxn, ite_zero_self]

theorem parse_directive_modifiers {node : Type}
    (parse_expr : List Char → Except fault node) (m : modifiers) (c : Char)
    (rest : List Char) (hm : m.wf = true) (hc : ends_modifiers c = true) :
    parse_directive parse_expr (m.text ++ c :: rest)
      = dispatch parse_expr m.element (c :: rest) := by
  have h := @modifiers_parsed node m c rest hm hc
  simp only [parse_directive]
  generalize parse_flag ({} : element_t node) (m.text ++ c :: rest) = r1 at h ⊢
  obtain ⟨a, b⟩ := r1
  simp only at h ⊢
  generalize parse_min_width a b = r2 at h ⊢
  obtain ⟨a2, b2⟩ := r2
  simp only at h ⊢
  rw [h]

theorem deref_dropWhile_before_close (close : Char) (hN : close ≠ NUL)
    (R : List Char) (h : close ∉ R) :
    deref (R.dropWhile (before_close close)) ≠ close := by
  induction R with
  | nil => simpa [deref] using hN.symm
  | cons x xs ih =>
    have hx : x ≠ close := fun e => h (by simp [e])
    have hxs : close ∉ xs := fun e => h (by simp [e])
    by_cases hb : before_close close x = true
    · rw [List.dropWhile_cons_of_pos hb]; exact ih hxs
    · rw [List.dropWhile_cons_of_neg hb]; simpa [deref] using hx

theorem dispatch_paren_missing {node : Type}
    (parse_expr : List Char → Except fault node) (cur : element_t node)
    (R : List Char) (h : ')' ∉ R) :
    dispatch parse_expr cur ('(' :: R) = .error (.format_error "Missing ')'") := by
  have hd := deref_dropWhile_before_close ')' (by decide) R h
  unfold dispatch
  simp only [deref_cons, List.tail_cons]
  simp [hd]

theorem dispatch_bracket_missing {node : Type}
    (parse_expr : List Char → Except fault node) (cur : element_t node)
    (R : List Char) (h : ']' ∉ R) :
    dispatch parse_expr cur ('[' :: R) = .error (.format_error "Missing ']'") := by
  have hd := deref_dropWhile_before_close ']' (by decide) R h
  unfold dispatch
  simp only [deref_cons, List.tail_cons]
  simp [hd]

theorem before_close_of (close : Char) (E : List Char) (h1 : close ∉ E)
    (h2 : NUL ∉ E) : ∀ a ∈ E, before_close close a = true := by
  intro a ha
  have e1 : a ≠ close := fun e => h1 (e ▸ ha)
  have e2 : a ≠ NUL := fun e => h2 (e ▸ ha)
  simp [before_close, e1, e2]

theorem before_close_self (close : Char) : before_close close close = false := by
  simp [before_close]

theorem dispatch_paren {node : Type}
    (parse_expr : List Char → Except fault node) (cur : element_t node)
    (E rest : List Char) (h1 : ')' ∉ E) (h2 : NUL ∉ E) :
    dispatch parse_expr cur ('(' :: (E ++ ')' :: rest))
      = (match parse_expr E with
         | .error e => .error e
         | .ok v =>
           .ok ({ cur with type := some .VALUE_EXPR, val_expr := some v }, ')' :: rest)) := by
  have hE := before_close_of ')' E h1 h2
  unfold dispatch
  simp only [deref_cons, List.tail_cons,
    takeWhile_run E ')' rest hE (before_close_self _),
    dropWhile_run E ')' rest hE (before_close_self _)]
  simp

theorem dispatch_bracket {node : Type}
    (parse_expr : List Char → Except fault node) (cur : element_t node)
    (E rest : List Char) (h1 : ']' ∉ E) (h2 : NUL ∉ E) :
    dispatch parse_expr cur ('[' :: (E ++ ']' :: rest))
      = .ok ({ cur with type := some .DATE_STRING, chars := E }, ']' :: rest) := by
  have hE := before_close_of ']' E h1 h2
  unfold dispatch
  simp only [deref_cons, List.tail_cons,
    takeWhile_run E ']' rest hE (before_close_self _),
    dropWhile_run E ']' rest hE (before_close_self _)]
  simp

/-! ## The loop of the compiler -/

theorem parse_flag_suffix {node : Type} (cur : element_t node) (p : List Char) :
    (parse_flag cur p).2 <:+ p := by
  unfold parse_flag
  split
  · exact List.tail_suffix p
  · exact List.suffix_refl p

theorem parse_min_width_suffix {node : Type} (cur : element_t node)
    (p : List Char) : (parse_min_width cur p).2 <:+ p := by
  unfold parse_min_width
  simp only []
  split <;> exact List.dropWhile_suffix _

theorem parse_max_width_suffix {node : Type} (cur : element_t node)
    (p : List Char) : (parse_max_width cur p).2 <:+ p := by
  unfold parse_max_width
  simp only []
  have h : p.tail.dropWhile digit_here <:+ p :=
    (List.dropWhile_suffix _).trans (List.tail_suffix p)
  split
  · split
    · split <;> exact h
    · exact h
  · exact List.suffix_refl p

theorem dispatch_suffix {node : Type}
    (parse_expr : List Char → Except fault node) (cur : element_t node)
    (p : List Char) (e : element_t node) (q : List Char)
    (h : dispatch parse_expr cur p = .ok (e, q)) : q <:+ p := by
  have hs : ∀ c, p.tail.dropWhile (before_close c) <:+ p := fun c =>
    (List.dropWhile_suffix _).trans (List.tail_suffix p)
  unfold dispatch at h
  by_cases h1 : deref p = '%'
  · rw [if_pos h1] at h; cases h; exact List.suffix_refl _
  rw [if_neg h1] at h
  by_cases h2 : deref p = '('
  · rw [if_pos h2] at h
    simp only [] at h
    split at h
    · cases h
    · split at h <;> cases h
      exact hs _
  rw [if_neg h2] at h
  by_cases h3 : deref p = '['
  · rw [if_pos h3] at h
    simp only [] at h
    split at h <;> cases h
    exact hs _
  rw [if_neg h3] at h
  by_cases h4 : deref p = 'd'
  · rw [if_pos h4] at h; cases h; exact List.suffix_refl _
  rw [if_neg h4] at h
  by_cases h5 : deref p = 'X'
  · rw [if_pos h5] at h; cases h; exact List.suffix_refl _
  rw [if_neg h5] at h
  by_cases h6 : deref p = 'C'
  · rw [if_pos h6] at h; cases h; exact List.suffix_refl _
  rw [if_neg h6] at h
  by_cases h7 : deref p = 'p'
  · rw [if_pos h7] at h; cases h; exact List.suffix_refl _
  rw [if_neg h7] at h
  by_cases h8 : deref p = 'n'
  · rw [if_pos h8] at h; cases h; exact List.suffix_refl _
  rw [if_neg h8] at h
  by_cases h9 : deref p = 'N'
  · rw [if_pos h9] at h; cases h; exact List.suffix_refl _
  rw [if_neg h9] at h
  by_cases h10 : deref p = 'o'
  · rw [if_pos h10] at h; cases h; exact List.suffix_refl _
  rw [if_neg h10] at h
  by_cases h11 : deref p = 't'
  · rw [if_pos h11] at h; cases h; exact List.suffix_refl _
  rw [if_neg h11] at h
  by_cases h12 : deref p = 'T'
  · rw [if_pos h12] at h; cases h; exact List.suffix_refl _
  rw [if_neg h12] at h
  by_cases h13 : deref p = '_'
  · rw [if_pos h13] at h; cases h; exact List.suffix_refl _
  rw [if_neg h13] at h
  cases h
  exact List.suffix_refl _

theorem parse_directive_suffix {node : Type}
    (parse_expr : List Char → Except fault node) (p : List Char)
    (e : element_t node) (q : List Char)
    (h : parse_directive parse_expr p = .ok (e, q)) : q <:+ p := by
  unfold parse_directive at h
  simp only [] at h
  have h1 := parse_flag_suffix ({} : element_t node) p
  generalize parse_flag ({} : element_t node) p = r1 at h h1
  obtain ⟨a1, b1⟩ := r1
  have h2 := parse_min_width_suffix a1 b1
  simp only [] at h h1 h2
  generalize parse_min_width a1 b1 = r2 at h h2
  obtain ⟨a2, b2⟩ := r2
  have h3 := parse_max_width_suffix a2 b2
  simp only [] at h h2 h3
  generalize parse_max_width a2 b2 = r3 at h h3
  obtain ⟨a3, b3⟩ := r3
  simp only [] at h h3
  exact (((dispatch_suffix parse_expr a3 b3 e q h).trans h3).trans h2).trans h1

theorem length_tail_of_deref_ne (p : List Char) (h : deref p ≠ NUL) :
    p.tail.length + 1 = p.length := by
  cases p with
  | nil => exact absurd rfl h
  | cons c r => simp

/-- The budget of `parse_loop` does not matter once it exceeds the length of the
text under the cursor: the loop never runs out of it. -/
theorem parse_loop_fuel {node : Type}
    (parse_expr : List Char → Except fault node) :
    ∀ (f1 f2 : Nat) (p str : List Char) (result : List (element_t node)),
      p.length < f1 → p.length < f2 →
      parse_loop parse_expr f1 p str result
        = parse_loop parse_expr f2 p str result := by
  intro f1
  induction f1 with
  | zero => intro f2 p str result h1; omega
  | succ a ih =>
    intro f2 p str result h1 h2
    cases f2 with
    | zero => omega
    | succ b =>
      unfold parse_loop
      by_cases hN : deref p = NUL
      · rw [if_pos hN, if_pos hN]
      · rw [if_neg hN, if_neg hN]
        have hl := length_tail_of_deref_ne p hN
        by_cases hP : deref p = '%'
        · rw [if_pos hP, if_pos hP]
          cases hd : parse_directive parse_expr p.tail with
          | error e => rfl
          | ok r =>
            obtain ⟨cur, q⟩ := r
            have hs := (parse_directive_suffix parse_expr p.tail cur q hd).length_le
            cases q with
            | nil => rfl
            | cons c q =>
              simp only [List.length_cons] at hs
              exact ih b q [] _ (by omega) (by omega)
        · rw [if_neg hP, if_neg hP]
          exact ih b p.tail _ _ (by omega) (by omega)

/-- The loop of `parse_elements` from the cursor `p`, with a budget that
suffices. -/
theorem parse_elements_eq {node : Type}
    (parse_expr : List Char → Except fault node) (fmt : List Char) :
    parse_elements parse_expr fmt
      = parse_loop parse_expr (fmt.length + 1) fmt [] [] := rfl

theorem parse_loop_end {node : Type}
    (parse_expr : List Char → Except fault node) (f : Nat) (str : List Char)
    (result : List (element_t node)) :
    parse_loop parse_expr (f + 1) [] str result = .ok (flush str result) := by
  unfold parse_loop
  rw [if_pos (by rfl)]

theorem parse_loop_char {node : Type}
    (parse_expr : List Char → Except fault node) (f : Nat) (c : Char)
    (r str : List Char) (result : List (element_t node))
    (h1 : c ≠ NUL) (h2 : c ≠ '%') :
    parse_loop parse_expr (f + 1) (c :: r) str result
      = parse_loop parse_expr f r (str ++ [c]) result := by
  rw [parse_loop]
  simp only [deref_cons, List.tail_cons]
  rw [if_neg h1, if_neg h2]

/-- A literal run in front of the cursor is appended to the pending text. -/
theorem parse_loop_literal {node : Type}
    (parse_expr : List Char → Except fault node) (l : List Char) :
    ∀ (f : Nat) (r str : List Char) (result : List (element_t node)),
      literal l = true → (l ++ r).length < f →
      parse_loop parse_expr f (l ++ r) str result
        = parse_loop parse_expr (r.length + 1) r (str ++ l) result := by
  induction l with
  | nil =>
    intro f r str result _ hf
    simpa using parse_loop_fuel parse_expr f (r.length + 1) r str result
      (by simpa using hf) (by omega)
  | cons c l ih =>
    intro f r str result hl hf
    simp only [literal, List.all_cons, Bool.and_eq_true, bne_iff_ne, ne_eq] at hl
    obtain ⟨⟨hc1, hc2⟩, hl⟩ := hl
    cases f with
    | zero => omega
    | succ f =>
      simp only [List.cons_append]
      rw [parse_loop_char parse_expr f c (l ++ r) str result hc2 hc1]
      rw [ih f r (str ++ [c]) result (by simpa [literal] using hl)
        (by simp only [List.cons_append, List.length_cons] at hf; omega)]
      simp

/-- A directive in front of the cursor whose `switch` stops inside the text:
the pending text is flushed, the element of the directive is appended and the
loop goes on behind the character the `switch` stopped at. -/
theorem parse_loop_directive {node : Type}
    (parse_expr : List Char → Except fault node) (f : Nat)
    (r str : List Char) (result : List (element_t node))
    (cur : element_t node) (c : Char) (q : List Char)
    (hd : parse_directive parse_expr r = .ok (cur, c :: q))
    (hf : ('%' :: r).length < f) :
    parse_loop parse_expr f ('%' :: r) str result
      = parse_loop parse_expr (q.length + 1) q [] (flush str result ++ [cur]) := by
  cases f with
  | zero => omega
  | succ f =>
    have hs := (parse_directive_suffix parse_expr r cur (c :: q) hd).length_le
    simp only [List.length_cons] at hs hf
    rw [parse_loop]
    simp only [deref_cons, List.tail_cons]
    rw [if_pos trivial, hd]
    simp only []
    exact parse_loop_fuel parse_expr f (q.length + 1) q [] _ (by omega) (by omega)

theorem parse_loop_directive_error {node : Type}
    (parse_expr : List Char → Except fault node) (f : Nat)
    (r str : List Char) (result : List (element_t node)) (e : fault)
    (hd : parse_directive parse_expr r = .error e) :
    parse_loop parse_expr (f + 1) ('%' :: r) str result = .error e := by
  rw [parse_loop]
  simp only [deref_cons, List.tail_cons]
  rw [if_pos trivial, hd]
  exact if_neg (by decide)

/-! ## Decimal numerals -/

theorem digitChar_isDigit (d : Nat) (h : d < 10) :
    (Nat.digitChar d).isDigit = true := by
  interval_cases d <;> decide

theorem digitChar_value (d : Nat) (h : d < 10) :
    (Nat.digitChar d).toNat - 48 = d := by
  interval_cases d <;> decide

theorem decimal_loop_digits :
    ∀ (fuel n : Nat) (acc : List Char), n ≤ fuel →
      decimal_loop fuel n acc
        = (Nat.digits 10 n).reverse.map Nat.digitChar ++ acc := by
  intro fuel
  induction fuel with
  | zero =>
    intro n acc h
    have : n = 0 := by omega
    subst this
    simp [decimal_loop]
  | succ fuel ih =>
    intro n acc h
    unfold decimal_loop
    by_cases hn : n = 0
    · subst hn; simp
    · rw [if_neg hn, ih (n / 10) _ (by omega),
        Nat.digits_def' (by norm_num) (Nat.pos_of_ne_zero hn)]
      simp

theorem decimal_eq_digits (n : Nat) :
    decimal n = (Nat.digits 10 n).reverse.map Nat.digitChar := by
  unfold decimal
  rw [decimal_loop_digits n n [] (le_refl n)]
  simp

theorem decimal_isDigit (n : Nat) : ∀ c ∈ decimal n, c.isDigit = true := by
  intro c hc
  simp only [decimal_eq_digits, List.mem_map, List.mem_reverse] at hc
  obtain ⟨d, hd, rfl⟩ := hc
  exact digitChar_isDigit d (Nat.digits_lt_base (by norm_num) hd)

theorem decimal_ne_nil (n : Nat) (h : 0 < n) : decimal n ≠ [] := by
  simp only [decimal_eq_digits, ne_eq, List.map_eq_nil_iff, List.reverse_eq_nil_iff]
  rw [Nat.digits_eq_nil_iff_eq_zero]
  omega

theorem foldr_digitChar (L : List Nat) (h : ∀ d ∈ L, d < 10) :
    L.foldr (fun d v => 10 * v + ((Nat.digitChar d).toNat - 48)) 0
      = Nat.ofDigits 10 L := by
  induction L with
  | nil => rfl
  | cons d L ih =>
    have hd := digitChar_value d (h d (by simp))
    have := ih (fun x hx => h x (by simp [hx]))
    simp only [List.foldr_cons, Nat.ofDigits_cons, this, hd]
    ring

theorem atol_decimal (n : Nat) : atol (decimal n) = min n LONG_MAX := by
  rw [decimal_eq_digits]
  unfold atol
  rw [List.foldl_map, List.foldl_reverse]
  rw [foldr_digitChar _ (fun d hd => Nat.digits_lt_base (by norm_num) hd)]
  rw [Nat.ofDigits_digits]

theorem width_of_decimal (n : Nat) (h0 : 0 < n) (h : n < UINT_SIZE) :
    width_of (decimal n) = n := by
  unfold width_of
  rw [if_pos (decimal_ne_nil n h0), atol_decimal]
  unfold UINT_SIZE at *
  unfold LONG_MAX
  rw [Nat.min_eq_left (by omega)]
  omega

/-! ## Formats made of one directive -/

theorem flush_nil {node : Type} (result : List (element_t node)) :
    flush [] result = result := by
  simp [flush]

theorem flush_append {node : Type} (str : List Char)
    (result : List (element_t node)) :
    flush str result = result ++ flush str [] := by
  unfold flush
  split <;> simp

/-- A format made of one directive whose `switch` stops on the last character
compiles to the element of that directive. -/
theorem parse_elements_single {node : Type}
    (parse_expr : List Char → Except fault node) (r : List Char)
    (cur : element_t node) (c : Char)
    (hd : parse_directive parse_expr r = .ok (cur, [c])) :
    parse_elements parse_expr ('%' :: r) = .ok [cur] := by
  rw [parse_elements_eq, parse_loop_directive parse_expr _ r [] [] cur c [] hd (by simp),
    parse_loop_end]
  simp [flush]

/-! ## Formats made of literal runs and directives -/

theorem letter_cases (c : Char) (h : (letter_kind c).isSome = true) :
    c = 'd' ∨ c = 'X' ∨ c = 'C' ∨ c = 'p' ∨ c = 'n' ∨ c = 'N' ∨ c = 'o'
      ∨ c = 't' ∨ c = 'T' ∨ c = '_' := by
  unfold letter_kind at h
  by_contra hn
  simp only [not_or] at hn
  obtain ⟨h1, h2, h3, h4, h5, h6, h7, h8, h9, h10⟩ := hn
  rw [if_neg h1, if_neg h2, if_neg h3, if_neg h4, if_neg h5, if_neg h6,
    if_neg h7, if_neg h8, if_neg h9, if_neg h10] at h
  exact absurd h (by decide)

theorem dispatch_letter {node : Type}
    (parse_expr : List Char → Except fault node) (cur : element_t node)
    (c : Char) (rest : List Char) (h : (letter_kind c).isSome = true) :
    ends_modifiers c = true ∧
    dispatch parse_expr cur (c :: rest)
      = .ok ({ cur with
               type := letter_kind c
               chars := if c = 'd' then "%Y/%m/%d".toList else cur.chars },
             c :: rest) := by
  rcases letter_cases c h with h | h | h | h | h | h | h | h | h | h <;>
    subst h <;> refine ⟨by decide, ?_⟩ <;>
    simp [dispatch, deref, letter_kind]

theorem dispatch_percent {node : Type}
    (parse_expr : List Char → Except fault node) (cur : element_t node)
    (rest : List Char) :
    dispatch parse_expr cur ('%' :: rest)
      = .ok ({ cur with type := some .STRING, chars := ['%'] }, '%' :: rest) := by
  simp [dispatch, deref]

/-- The `%` branch on a well-formed directive, whatever follows it: the element
of the directive, and the cursor on the last character of the directive. -/
theorem parse_directive_wf {node : Type}
    (parse_expr : List Char → Except fault node) (d : directive)
    (rest : List Char) (hd : d.wf parse_expr = true) :
    ∃ (c : Char) (body : List Char),
      d.mods.text ++ d.spec.text = body ++ [c] ∧
      parse_directive parse_expr (body ++ c :: rest)
        = .ok (d.element parse_expr, c :: rest) := by
  obtain ⟨m, sp⟩ := d
  simp only [directive.wf, Bool.and_eq_true] at hd
  obtain ⟨hm, hs⟩ := hd
  cases sp with
  | percent =>
    refine ⟨'%', m.text, rfl, ?_⟩
    rw [parse_directive_modifiers parse_expr m '%' rest hm (by decide),
      dispatch_percent]
    rfl
  | expr e =>
    simp only [Bool.and_eq_true, Bool.not_eq_true', List.contains_eq_any_beq,
      List.any_eq_false, beq_iff_eq] at hs
    obtain ⟨⟨h1, h2⟩, h3⟩ := hs
    have h1' : ')' ∉ e := fun hmem => h1 _ hmem rfl
    have h2' : NUL ∉ e := fun hmem => h2 _ hmem rfl
    refine ⟨')', m.text ++ '(' :: e, by simp [spec_t.text], ?_⟩
    have : (m.text ++ '(' :: e) ++ ')' :: rest = m.text ++ '(' :: (e ++ ')' :: rest) := by
      simp
    rw [this, parse_directive_modifiers parse_expr m '(' _ hm (by decide),
      dispatch_paren parse_expr _ e rest h1' h2']
    simp only [directive.element]
    cases hp : parse_expr e with
    | error err => rw [hp] at h3; exact absurd h3 (by simp)
    | ok v => rfl
  | date e =>
    simp only [Bool.and_eq_true, Bool.not_eq_true', List.contains_eq_any_beq,
      List.any_eq_false, beq_iff_eq] at hs
    obtain ⟨h1, h2⟩ := hs
    have h1' : ']' ∉ e := fun hmem => h1 _ hmem rfl
    have h2' : NUL ∉ e := fun hmem => h2 _ hmem rfl
    refine ⟨']', m.text ++ '[' :: e, by simp [spec_t.text], ?_⟩
    have : (m.text ++ '[' :: e) ++ ']' :: rest = m.text ++ '[' :: (e ++ ']' :: rest) := by
      simp
    rw [this, parse_directive_modifiers parse_expr m '[' _ hm (by decide),
      dispatch_bracket parse_expr _ e rest h1' h2']
    rfl
  | letter c =>
    simp only at hs
    obtain ⟨hc, hdis⟩ := dispatch_letter parse_expr (m.element) c rest hs
    refine ⟨c, m.text, rfl, ?_⟩
    rw [parse_directive_modifiers parse_expr m c rest hm hc, hdis]
    rfl

/-- One step of the loop over a well-formed directive. -/
theorem parse_loop_wf {node : Type}
    (parse_expr : List Char → Except fault node) (d : directive)
    (rest str : List Char) (result : List (element_t node)) (f : Nat)
    (hd : d.wf parse_expr = true) (hf : (d.text ++ rest).length < f) :
    parse_loop parse_expr f (d.text ++ rest) str result
      = parse_loop parse_expr (rest.length + 1) rest []
          (flush str result ++ [d.element parse_expr]) := by
  obtain ⟨c, body, hb, hp⟩ := parse_directive_wf parse_expr d rest hd
  have ht : d.text ++ rest = '%' :: (body ++ c :: rest) := by
    simp [directive.text, hb]
  rw [ht] at hf ⊢
  exact parse_loop_directive parse_expr f _ str result _ c rest hp hf

/-- The loop over directives that are each followed by a literal run. -/
theorem parse_loop_segments {node : Type}
    (parse_expr : List Char → Except fault node) :
    ∀ (segs : List (directive × List Char)) (str : List Char)
      (result : List (element_t node)),
      (∀ s ∈ segs, s.1.wf parse_expr = true ∧ literal s.2 = true) →
      parse_loop parse_expr ((segments_text segs).length + 1)
          (segments_text segs) str result
        = .ok (flush str result ++ segments_elements parse_expr segs) := by
  intro segs
  induction segs with
  | nil =>
    intro str result _
    simp [segments_text, segments_elements, parse_loop_end]
  | cons s segs ih =>
    intro str result h
    obtain ⟨hw, hl⟩ := h s (by simp)
    have hrest : ∀ t ∈ segs, t.1.wf parse_expr = true ∧ literal t.2 = true :=
      fun t ht => h t (by simp [ht])
    have ht : segments_text (s :: segs)
        = s.1.text ++ (s.2 ++ segments_text segs) := by
      simp [segments_text]
    rw [ht, parse_loop_wf parse_expr s.1 _ str result _ hw (by omega),
      parse_loop_literal parse_expr s.2 _ _ [] _ hl (by omega)]
    rw [List.nil_append, ih s.2 _ hrest,
      flush_append s.2 (flush str result ++ [s.1.element parse_expr])]
    simp [segments_elements]

theorem modifiers_wf_decimal (minus : Bool) (m x : Nat) :
    ({ minus := minus, min := decimal m, max := some (decimal x) } : modifiers).wf
      = true := by
  simp only [modifiers.wf, Bool.and_eq_true, List.all_eq_true, Option.getD_some]
  exact ⟨decimal_isDigit m, decimal_isDigit x⟩

theorem modifiers_wf_max (x : Nat) :
    ({ max := some (decimal x) } : modifiers).wf = true := by
  simp only [modifiers.wf, Bool.and_eq_true, List.all_eq_true, Option.getD_some]
  exact ⟨by simp, decimal_isDigit x⟩

/-- A format made of one single-letter directive. -/
theorem parse_elements_letter {node : Type}
    (parse_expr : List Char → Except fault node) (m : modifiers) (c : Char)
    (hm : m.wf = true) (hc : (letter_kind c).isSome = true) :
    parse_elements parse_expr ('%' :: (m.text ++ [c]))
      = .ok [{ (m.element : element_t node) with
               type := letter_kind c
               chars := if c = 'd' then "%Y/%m/%d".toList else [] }] := by
  obtain ⟨he, hdis⟩ := dispatch_letter parse_expr (m.element) c [] hc
  exact parse_elements_single parse_expr _ _ c
    (by rw [parse_directive_modifiers parse_expr m c [] hm he, hdis]; rfl)

/-- A format made of one expression directive and a literal run: the
expression is the text up to the first `)`. -/
theorem parse_elements_expr {node : Type}
    (parse_expr : List Char → Except fault node) (m : modifiers)
    (E T : List Char) (hm : m.wf = true) (h1 : ')' ∉ E) (h2 : NUL ∉ E)
    (hT : literal T = true) :
    parse_elements parse_expr ('%' :: (m.text ++ '(' :: (E ++ ')' :: T)))
      = (match parse_expr E with
         | .ok v =>
           .ok ({ (m.element : element_t node) with
                  type := some .VALUE_EXPR, val_expr := some v } :: flush T [])
         | .error e => .error e) := by
  have hd := parse_directive_modifiers parse_expr m '(' (E ++ ')' :: T) hm (by decide)
  rw [dispatch_paren parse_expr _ E T h1 h2] at hd
  rw [parse_elements_eq]
  cases hp : parse_expr E with
  | error e =>
    rw [hp] at hd
    exact parse_loop_directive_error parse_expr _ _ [] [] e hd
  | ok v =>
    rw [hp] at hd
    simp only at hd ⊢
    rw [parse_loop_directive parse_expr _ _ [] [] _ ')' T hd (by simp)]
    have := parse_loop_literal parse_expr T (T.length + 1) [] []
      (flush [] [] ++ [{ (m.element : element_t node) with
        type := some .VALUE_EXPR, val_expr := some v }]) hT (by simp)
    simp only [List.append_nil, List.nil_append] at this
    rw [this, parse_loop_end, flush_append]
    simp [flush]

/-- The format `%((a+b)*2)` under any expression parser: the parser is given the
text `(a+b`; the compilation ends with its error, or yields two elements. -/
theorem nested_parentheses_in_general {node : Type}
    (parse_expr : List Char → Except fault node) :
    parse_elements parse_expr "%((a+b)*2)".toList
      = (match parse_expr "(a+b".toList with
         | .ok v =>
           .ok [{ type := some .VALUE_EXPR, val_expr := some v },
                { type := some .STRING, chars := "*2)".toList }]
         | .error e => .error e) := by
  have := parse_elements_expr parse_expr {} "(a+b".toList "*2)".toList (by decide)
    (by decide) (by decide) (by decide)
  simp only [modifiers.text] at this
  simp only [Bool.false_eq_true, if_false, List.nil_append, List.append_nil] at this
  cases h : parse_expr "(a+b".toList with
  | error e => rw [h] at this; exact this
  | ok v => rw [h] at this; exact this

/-! ## Truncation: the claims -/

/-- C1 (the code at the failing input): for a text of 254 characters and the
width 255, `truncated` tests the byte `buf[255]`, which `memset` has not
cleared. When that byte is not zero the last character of the text is lost and
two dots are appended although the text fits the width; when it is zero the text
comes back unchanged. -/
theorem truncated_uncleared_byte :
    (List.replicate 254 'a').length ≤ 255 ∧
    truncated 'x' (List.replicate 254 'a') 255
      = .ok (List.replicate 253 'a' ++ ['.', '.']) ∧
    truncated NUL (List.replicate 254 'a') 255
      = .ok (List.replicate 254 'a') := by
  decide

/-- C2 (counterexample): the text `a`, terminator, `b` has length 3 and the
width is 10, but `truncated` returns the one character in front of the
terminator, not a text of length `min 3 10`. -/
theorem truncated_stops_at_terminator :
    ¬ ∃ r, truncated NUL ['a', NUL, 'b'] 10 = .ok r ∧
        r.length = min ['a', NUL, 'b'].length 10 := by
  have h : truncated NUL ['a', NUL, 'b'] 10 = .ok ['a'] := by decide
  rintro ⟨r, hr, hl⟩
  rw [h] at hr
  cases hr
  revert hl
  decide

/-- C2 (amended): for every text without terminator and of at most 256 bytes and
every width below 255 that is at least 2 or not exceeded by the text,
`truncated` returns a text whose length is exactly the minimum of the length of
the text and the width. -/
theorem truncated_length (buf255 : Char) (s : List Char) (w : Nat)
    (hnul : NUL ∉ s) (hlen : s.length ≤ 256) (hw : w < 255)
    (h2 : 2 ≤ w ∨ s.length ≤ w) :
    ∃ r, truncated buf255 s w = .ok r ∧ r.length = min s.length w := by
  refine ⟨_, truncated_eq buf255 s w hnul hlen hw h2, ?_⟩
  split
  · omega
  · simp only [List.length_append, List.length_take, List.length_cons,
      List.length_nil]
    omega

theorem truncated_length_witness :
    ∃ r, truncated 'x' "1234567890".toList 5 = .ok r ∧
      r.length = min "1234567890".toList.length 5 :=
  truncated_length 'x' "1234567890".toList 5 (by decide) (by decide) (by decide)
    (by decide)

/-! ## The format compiler: the claims -/

/-- C3 (counterexample): the format `%.4294967296t` holds the decimal numeral of
`2 ^ 32`, but the element it compiles to has both widths 0: the value does not
fit the `unsigned int` fields. -/
theorem width_wraps :
    decimal 4294967296 = "4294967296".toList ∧
    parse_elements text_expr "%.4294967296t".toList
      = .ok [{ min_width := 0, max_width := 0, type := some .VALUE }] := by
  decide

/-- C3 (amended): for all positive integers `m` and `x` below `2 ^ 32`, the
format `%.<x>t` compiles to exactly one `VALUE` element with both widths `x`,
and the format `%<m>.<x>t` to exactly one `VALUE` element with minimum width
`m` and maximum width `x`. -/
theorem width_defaulting {node : Type}
    (parse_expr : List Char → Except fault node) (m x : Nat)
    (hm0 : 0 < m) (hm : m < UINT_SIZE) (hx0 : 0 < x) (hx : x < UINT_SIZE) :
    parse_elements parse_expr ('%' :: '.' :: (decimal x ++ ['t']))
      = .ok [{ min_width := x, max_width := x, type := some .VALUE }] ∧
    parse_elements parse_expr ('%' :: (decimal m ++ '.' :: (decimal x ++ ['t'])))
      = .ok [{ min_width := m, max_width := x, type := some .VALUE }] := by
  have wm := width_of_decimal m hm0 hm
  have wx := width_of_decimal x hx0 hx
  have wn : width_of [] = 0 := rfl
  constructor
  · have := parse_elements_letter parse_expr { max := some (decimal x) } 't'
      (modifiers_wf_max x) (by decide)
    simp only [modifiers.text, modifiers.element, Option.getD_some, wx, wn] at this
    simpa [letter_kind] using this
  · have := parse_elements_letter parse_expr
      { min := decimal m, max := some (decimal x) } 't'
      (modifiers_wf_decimal false m x) (by decide)
    simp only [modifiers.text, modifiers.element, Option.getD_some, wx, wm] at this
    have hne : m ≠ 0 := by omega
    simpa [letter_kind, hne] using this

theorem width_defaulting_witness :
    parse_elements text_expr "%.10t".toList
      = .ok [{ min_width := 10, max_width := 10, type := some .VALUE }] ∧
    parse_elements text_expr "%20.10t".toList
      = .ok [{ min_width := 20, max_width := 10, type := some .VALUE }] :=
  width_defaulting text_expr 20 10 (by decide) (by decide) (by decide) (by decide)

/-- C4 (counterexample): in `%-4294967296.8(amount)` the minimum width written
is `2 ^ 32`, but the element has minimum width 8; and when the expression text
holds a terminator the compilation ends with the error of the missing `)`
although the text holds no `)`. -/
theorem directive_minimum_wraps :
    parse_elements text_expr "%-4294967296.8(amount)".toList
      = .ok [{ align_left := true, min_width := 8, max_width := 8,
               type := some .VALUE_EXPR, val_expr := some "amount".toList }] ∧
    parse_elements text_expr ("%-12.8(a".toList ++ NUL :: "b)".toList)
      = .error (.format_error "Missing ')'") := by
  decide

/-- C4 (amended): for every expression text `E` without `)` and without
terminator and all positive integers `m` and `x` below `2 ^ 32`, the format
`%-<m>.<x>(E)` compiles to exactly one element, of kind `VALUE_EXPR`, aligned
left, with minimum width `m`, maximum width `x`, no text and the expression the
parser returns for `E`; when the parser rejects `E` the compilation ends with
the error of the parser. -/
theorem directive_parsing {node : Type}
    (parse_expr : List Char → Except fault node) (m x : Nat) (E : List Char)
    (hm0 : 0 < m) (hm : m < UINT_SIZE) (hx0 : 0 < x) (hx : x < UINT_SIZE)
    (h1 : ')' ∉ E) (h2 : NUL ∉ E) :
    parse_elements parse_expr
        ('%' :: '-' :: (decimal m ++ '.' :: (decimal x ++ '(' :: (E ++ [')']))))
      = (match parse_expr E with
         | .ok v =>
           .ok [{ align_left := true, min_width := m, max_width := x,
                  type := some .VALUE_EXPR, chars := [], val_expr := some v }]
         | .error e => .error e) := by
  have wm := width_of_decimal m hm0 hm
  have wx := width_of_decimal x hx0 hx
  have hne : m ≠ 0 := by omega
  have := parse_elements_expr parse_expr
    { minus := true, min := decimal m, max := some (decimal x) } E []
    (modifiers_wf_decimal true m x) h1 h2 (by decide)
  simp only [modifiers.text, modifiers.element, Option.getD_some, wx, wm, hne,
    if_false, flush_nil] at this
  simpa using this

theorem directive_parsing_witness :
    parse_elements text_expr "%-12.8(amount)".toList
      = .ok [{ align_left := true, min_width := 12, max_width := 8,
               type := some .VALUE_EXPR, chars := [],
               val_expr := some "amount".toList }] :=
  directive_parsing text_expr 12 8 "amount".toList (by decide) (by decide)
    (by decide) (by decide) (by decide) (by decide)

/-- C5 (counterexample): the prefix made of a terminator holds no `%`, and the
format that consists of it and of `%(amount` holds no `)`, but the compilation
does not fail: the scan ends on the terminator and the empty chain is
returned. -/
theorem terminator_hides_directive :
    '%' ∉ [NUL] ∧ ')' ∉ "amount".toList ∧
    parse_elements text_expr ([NUL] ++ '%' :: '(' :: "amount".toList) = .ok [] := by
  decide

/-- C5 (amended): for every literal prefix `P` without `%` and without
terminator, all modifiers `[-][digits][.digits]` and every text `R`: when `R`
holds no `)` the compilation of `P % modifiers ( R` ends with the format error
`Missing ')'`, and when `R` holds no `]` the compilation of `P % modifiers [ R`
ends with the format error `Missing ']'`; in both cases no chain is returned. -/
theorem missing_close {node : Type}
    (parse_expr : List Char → Except fault node) (P : List Char) (m : modifiers)
    (R : List Char) (hP : literal P = true) (hm : m.wf = true) :
    (')' ∉ R →
      parse_elements parse_expr (P ++ '%' :: (m.text ++ '(' :: R))
        = .error (.format_error "Missing ')'")) ∧
    (']' ∉ R →
      parse_elements parse_expr (P ++ '%' :: (m.text ++ '[' :: R))
        = .error (.format_error "Missing ']'")) := by
  constructor
  · intro hR
    have hd := parse_directive_modifiers parse_expr m '(' R hm (by decide)
    rw [dispatch_paren_missing parse_expr _ R hR] at hd
    rw [parse_elements_eq, parse_loop_literal parse_expr P _ _ [] [] hP (by omega)]
    exact parse_loop_directive_error parse_expr _ _ _ _ _ hd
  · intro hR
    have hd := parse_directive_modifiers parse_expr m '[' R hm (by decide)
    rw [dispatch_bracket_missing parse_expr _ R hR] at hd
    rw [parse_elements_eq, parse_loop_literal parse_expr P _ _ [] [] hP (by omega)]
    exact parse_loop_directive_error parse_expr _ _ _ _ _ hd

theorem missing_close_witness :
    parse_elements text_expr "%(amount".toList
      = .error (.format_error "Missing ')'") :=
  (missing_close text_expr [] {} "amount".toList (by decide) (by decide)).1
    (by decide)

/-- C6 (counterexample): the parentheses of `(a+b)*2` are balanced, but
`%((a+b)*2)` compiles to two elements: the expression is the text `(a+b` in
front of the first `)`, and the rest `*2)` is a trailing `STRING` element. -/
theorem nested_parentheses_split :
    parse_elements text_expr "%((a+b)*2)".toList
      = .ok [{ type := some .VALUE_EXPR, val_expr := some "(a+b".toList },
             { type := some .STRING, chars := "*2)".toList }] := by
  decide

/-- C6 (amended): a `%(` directive consumes its contents up to the first `)`:
for every text `E` without `)` and without terminator and every literal run `T`
(without `%` and terminator), `%(E)T` compiles to the `VALUE_EXPR` element
whose expression is the parse of the whole of `E`, followed by one `STRING`
element holding `T` when `T` is not empty and by nothing when it is; when the
parser rejects `E` the compilation ends with the error of the parser. -/
theorem expression_up_to_first_close {node : Type}
    (parse_expr : List Char → Except fault node) (E T : List Char)
    (h1 : ')' ∉ E) (h2 : NUL ∉ E) (hT : literal T = true) :
    parse_elements parse_expr ('%' :: '(' :: (E ++ ')' :: T))
      = (match parse_expr E with
         | .ok v =>
           .ok ({ type := some .VALUE_EXPR, val_expr := some v }
                 :: (if T ≠ [] then [{ type := some .STRING, chars := T }] else []))
         | .error e => .error e) := by
  have := parse_elements_expr parse_expr {} E T (by decide) h1 h2 hT
  simp only [modifiers.text] at this
  simp only [Bool.false_eq_true, if_false, List.nil_append, List.append_nil] at this
  rw [this]
  cases parse_expr E with
  | error e => rfl
  | ok v =>
    simp only [flush, List.nil_append]
    rfl

theorem expression_up_to_first_close_witness :
    parse_elements text_expr "%(amount) due".toList
      = .ok [{ type := some .VALUE_EXPR, val_expr := some "amount".toList },
             { type := some .STRING, chars := " due".toList }] :=
  expression_up_to_first_close text_expr "amount".toList " due".toList (by decide)
    (by decide) (by decide)

/-- C7 (counterexample): the text `a`, terminator, `b` holds no `%`, but it
compiles to a `STRING` element that holds only the `a` in front of the
terminator, not the whole text. -/
theorem literal_cut_at_terminator :
    '%' ∉ ['a', NUL, 'b'] ∧
    parse_elements text_expr ['a', NUL, 'b']
      = .ok [{ type := some .STRING, chars := ['a'] }] := by
  decide

/-- C7 (amended): for every format `L0 D1 L1 ... Dn Ln` in which each `Li` is a
run (possibly empty) of characters other than `%` and the terminator and each
`Di` is a well-formed directive, `parse_elements` returns, in the order of the
text, one `STRING` element with the text `Li` for each `Li` that is not empty and
the element of `Di` for each directive, and nothing else. -/
theorem parse_elements_segments {node : Type}
    (parse_expr : List Char → Except fault node) (L0 : List Char)
    (segs : List (directive × List Char)) (h0 : literal L0 = true)
    (h : ∀ s ∈ segs, s.1.wf parse_expr = true ∧ literal s.2 = true) :
    parse_elements parse_expr (L0 ++ segments_text segs)
      = .ok ((if L0 ≠ [] then [{ type := some .STRING, chars := L0 }] else [])
              ++ segments_elements parse_expr segs) := by
  rw [parse_elements_eq,
    parse_loop_literal parse_expr L0 _ _ [] [] h0 (by omega),
    List.nil_append, parse_loop_segments parse_expr segs L0 [] h]
  simp only [flush, List.nil_append]

theorem parse_elements_segments_witness :
    parse_elements text_expr "a %-12.8(amount) b %t".toList
      = .ok [{ type := some .STRING, chars := "a ".toList },
             { align_left := true, min_width := 12, max_width := 8,
               type := some .VALUE_EXPR, val_expr := some "amount".toList },
             { type := some .STRING, chars := " b ".toList },
             { type := some .VALUE }] :=
  parse_elements_segments text_expr "a ".toList
    [({ mods := { minus := true, min := "12".toList, max := some "8".toList },
        spec := .expr "amount".toList }, " b ".toList),
     ({ spec := .letter 't' }, [])]
    (by decide) (by decide)

/-- C8: the dispatch table of `parse_elements`. The formats `%X`, `%C`, `%p`,
`%n`, `%N`, `%o`, `%t`, `%T` and `%_` compile to exactly one element each, of
the kinds `CLEARED`, `CODE`, `PAYEE`, `ACCOUNT_NAME`, `ACCOUNT_FULLNAME`,
`OPT_AMOUNT`, `VALUE`, `TOTAL` and `SPACER`; `%d` compiles to exactly one
`DATE_STRING` element with the text `%Y/%m/%d`, and `%%` to exactly one `STRING`
element with the text `%`. -/
theorem dispatch_table {node : Type}
    (parse_expr : List Char → Except fault node) :
    parse_elements parse_expr "%X".toList = .ok [{ type := some .CLEARED }] ∧
    parse_elements parse_expr "%C".toList = .ok [{ type := some .CODE }] ∧
    parse_elements parse_expr "%p".toList = .ok [{ type := some .PAYEE }] ∧
    parse_elements parse_expr "%n".toList = .ok [{ type := some .ACCOUNT_NAME }] ∧
    parse_elements parse_expr "%N".toList = .ok [{ type := some .ACCOUNT_FULLNAME }] ∧
    parse_elements parse_expr "%o".toList = .ok [{ type := some .OPT_AMOUNT }] ∧
    parse_elements parse_expr "%t".toList = .ok [{ type := some .VALUE }] ∧
    parse_elements parse_expr "%T".toList = .ok [{ type := some .TOTAL }] ∧
    parse_elements parse_expr "%_".toList = .ok [{ type := some .SPACER }] ∧
    parse_elements parse_expr "%d".toList
      = .ok [{ type := some .DATE_STRING, chars := "%Y/%m/%d".toList }] ∧
    parse_elements parse_expr "%%".toList
      = .ok [{ type := some .STRING, chars := "%".toList }] := by
  refine ⟨?_, ?_, ?_, ?_, ?_, ?_, ?_, ?_, ?_, ?_, ?_⟩ <;> rfl

/-! ## The renderer: the claims -/

theorem count_real_filter {amount_t : Type}
    (ts : List (transaction_t amount_t)) :
    ∀ st : Nat × Option (transaction_t amount_t) × Option (transaction_t amount_t),
      ts.foldl count_real_step st
        = (ts.filter (fun t => !t.auto)).foldl count_real_step st := by
  induction ts with
  | nil => intro st; rfl
  | cons t ts ih =>
    intro st
    by_cases h : t.auto = true
    · rw [List.filter_cons_of_neg (by simp [h]), List.foldl_cons, ← ih]
      simp [count_real_step, h]
    · have h' : t.auto = false := by simpa using h
      rw [List.filter_cons_of_pos (by simp [h']), List.foldl_cons, List.foldl_cons, ih]

theorem count_real_two {amount_t : Type} (ts : List (transaction_t amount_t))
    (t1 t2 : transaction_t amount_t)
    (h : ts.filter (fun t => !t.auto) = [t1, t2]) :
    count_real ts = (2, some t1, some t2) := by
  have h1 : t1 ∈ ts.filter (fun t => !t.auto) := by rw [h]; simp
  have h2 : t2 ∈ ts.filter (fun t => !t.auto) := by rw [h]; simp
  have a1 : t1.auto = false := by simpa using (List.mem_filter.mp h1).2
  have a2 : t2.auto = false := by simpa using (List.mem_filter.mp h2).2
  unfold count_real
  rw [count_real_filter, h]
  simp [count_real_step, a1, a2, UINT_SIZE]

/-- C9: for every entry whose transactions not flagged as automatically
generated are exactly two, `t1` and then `t2`, with the amount of `t1` the
negation of the amount of `t2`, each with its amount equal to its cost and with
an empty note, an `OPT_AMOUNT` element of minimum width 0 writes nothing for the
row of `t2` and exactly the text of the amount of `t1` for the row of `t1`,
whatever `written` the stream already holds. -/
theorem opt_amount_elision {node amount_t balance_t : Type}
    [DecidableEq amount_t] [Neg amount_t] [Div amount_t]
    (env : collaborators node amount_t balance_t) (buf255 : Char)
    (elem : element_t node) (entry : entry_t amount_t)
    (t1 t2 : transaction_t amount_t) (account : List (account_t balance_t))
    (written : List Char) (left : Bool)
    (hk : elem.type = some .OPT_AMOUNT) (hw : elem.min_width = 0)
    (hreal : entry.transactions.filter (fun t => !t.auto) = [t1, t2])
    (hptr : t1.addr ≠ t2.addr) (hneg : t1.amount = - t2.amount)
    (hc1 : t1.amount = t1.cost) (hc2 : t2.amount = t2.cost)
    (hn1 : t1.note = []) (hn2 : t2.note = []) :
    (∃ out2, format_elements env buf255 [elem]
          { entry := some entry, xact := some t2, account := account }
          { text := written, left := left }
        = .ok out2 ∧ out2.text = written ++ []) ∧
    (∃ out1, format_elements env buf255 [elem]
          { entry := some entry, xact := some t1, account := account }
          { text := written, left := left }
        = .ok out1 ∧ out1.text = written ++ env.amount_string t1.amount) := by
  have hcount := count_real_two entry.transactions t1 t2 hreal
  constructor
  · refine ⟨{ text := written, width := 0, left := elem.align_left }, ?_, by simp⟩
    simp [format_elements, format_element, hk, hw, format_opt_amount, hc2, hcount,
      hneg, hn2, ostream.write]
  · refine ⟨{ text := written ++ env.amount_string t1.amount, width := 0,
              left := elem.align_left }, ?_, rfl⟩
    simp [format_elements, format_element, hk, hw, format_opt_amount, hc1, hcount,
      hptr, hn1, ostream.write]

theorem opt_amount_elision_witness :
    (∃ out2, format_elements int_env 'x' [{ type := some .OPT_AMOUNT }]
          { entry := some { transactions :=
              [{ addr := 1, amount := 100, cost := 100 },
               { addr := 2, amount := -100, cost := -100 }] },
            xact := some { addr := 2, amount := -100, cost := -100 },
            account := [] } {}
        = .ok out2 ∧ out2.text = "".toList) ∧
    (∃ out1, format_elements int_env 'x' [{ type := some .OPT_AMOUNT }]
          { entry := some { transactions :=
              [{ addr := 1, amount := 100, cost := 100 },
               { addr := 2, amount := -100, cost := -100 }] },
            xact := some { addr := 1, amount := 100, cost := 100 },
            account := [] } {}
        = .ok out1 ∧ out1.text = "100".toList) :=
  opt_amount_elision int_env 'x' { type := some .OPT_AMOUNT }
    { transactions :=
        [{ addr := 1, amount := 100, cost := 100 },
         { addr := 2, amount := -100, cost := -100 }] }
    { addr := 1, amount := 100, cost := 100 }
    { addr := 2, amount := -100, cost := -100 } [] [] false
    rfl rfl (by decide) (by decide) (by decide) (by decide) (by decide)
    rfl rfl

/-! ## The account row driver: the claims -/

theorem count_children_filter {balance_t : Type} [DecidableEq balance_t]
    (nonzero : balance_t → Bool) (total : balance_t)
    (cs : List (List Char × balance_t)) :
    ∀ st : Nat × Bool,
      count_children nonzero total cs st
        = count_children nonzero total (cs.filter (fun i => nonzero i.2)) st := by
  induction cs with
  | nil => intro st; rfl
  | cons c cs ih =>
    rintro ⟨counted, display⟩
    by_cases h : nonzero c.2 = true
    · rw [List.filter_cons_of_pos (by simpa using h)]
      simp only [count_children, h, Bool.not_true, Bool.false_eq_true, if_false]
      split
      · rfl
      · exact ih _
    · have h' : nonzero c.2 = false := by simpa using h
      rw [List.filter_cons_of_neg (by simp [h'])]
      simp only [count_children, h', Bool.not_false, if_true]
      exact ih _

/-- The loop over the children decides what the description says: the account is
redundant exactly when one child alone has a total, equal to that of the
account. -/
theorem suppressed_eq {balance_t : Type} [DecidableEq balance_t]
    (nonzero : balance_t → Bool) (total : balance_t)
    (cs : List (List Char × balance_t)) :
    suppressed nonzero total cs = lone_matching_child nonzero total cs := by
  unfold suppressed lone_matching_child
  rw [count_children_filter]
  have hall : ∀ c ∈ cs.filter (fun i => nonzero i.2), nonzero c.2 = true :=
    fun c hc => by simpa using (List.mem_filter.mp hc).2
  generalize cs.filter (fun i => nonzero i.2) = l at hall
  match l, hall with
  | [], _ => simp [count_children]
  | [c], hall =>
    have hc := hall c (by simp)
    by_cases e : c.2 = total
    · have hc2 := hc
      rw [e] at hc2
      simp [count_children, hc, hc2, e]
    · simp [count_children, hc, e]
  | c :: d :: r, hall =>
    have hc := hall c (by simp)
    have hd := hall d (by simp)
    by_cases e : c.2 = total
    · have hc2 := hc
      rw [e] at hc2
      simp [count_children, hc, hc2, hd, e]
    · simp [count_children, hc, hd, e]

theorem lone_matching_child_perm {balance_t : Type} [DecidableEq balance_t]
    (nonzero : balance_t → Bool) (total : balance_t)
    (cs cs2 : List (List Char × balance_t)) (h : cs2.Perm cs) :
    lone_matching_child nonzero total cs2
      = lone_matching_child nonzero total cs := by
  unfold lone_matching_child
  have hp := h.filter (fun i => nonzero i.2)
  generalize cs.filter (fun i => nonzero i.2) = l at hp
  generalize cs2.filter (fun i => nonzero i.2) = l2 at hp
  have hlen := hp.length_eq
  match l, l2, hp, hlen with
  | [], [], _, _ => rfl
  | [c], [d], hp, _ =>
    have : d = c := by simpa using hp
    rw [this]
  | _ :: _ :: _, _ :: _ :: _, _, _ => rfl
  | [], _ :: _, _, hlen => simp at hlen
  | _ :: _, [], _, hlen => simp at hlen
  | [_], _ :: _ :: _, _, hlen => simp at hlen
  | _ :: _ :: _, [_], _, hlen => simp at hlen

/-- C10: for every account that passes the row-selection predicate, is not the
root with `report_top` false, and is within the depth limit, the account is
rendered and flagged displayed if and only if it is not the case that exactly one
of its direct children has a total that is not zero and that equals the total of
the account; otherwise stream and account are left as they are. The decision
does not depend on the order of the children. -/
theorem account_suppression {node amount_t balance_t : Type}
    [DecidableEq amount_t] [Neg amount_t] [Div amount_t] [DecidableEq balance_t]
    (env : collaborators node amount_t balance_t) (buf255 : Char)
    (nonzero : balance_t → Bool) (disp_pred : List (account_t balance_t) → Bool)
    (format : List (element_t node)) (out : ostream)
    (account : account_t balance_t) (parent : List (account_t balance_t))
    (max_depth : Nat) (report_top : Bool)
    (hpred : disp_pred (account :: parent) = true)
    (htop : report_top = true ∨ parent ≠ [])
    (hdepth : max_depth = 0 ∨ account.depth ≤ max_depth) :
    (account_output nonzero disp_pred account parent max_depth report_top = true
      ↔ lone_matching_child nonzero account.total account.accounts = false) ∧
    format_account env buf255 nonzero disp_pred format out account parent
        max_depth report_top
      = (if lone_matching_child nonzero account.total account.accounts then
           .ok (out, account)
         else
           match format_elements env buf255 format { account := account :: parent }
               out with
           | .error e => .error e
           | .ok out => .ok (out, { account with displayed := true })) ∧
    (∀ accounts2 : List (List Char × balance_t), accounts2.Perm account.accounts →
      suppressed nonzero account.total accounts2
        = suppressed nonzero account.total account.accounts) := by
  have hgate : (report_top || !parent.isEmpty) = true := by
    rcases htop with h | h
    · simp [h]
    · cases parent with
      | nil => exact absurd rfl h
      | cons a r => simp
  have hd : (decide (max_depth = 0) || decide (account.depth ≤ max_depth)) = true := by
    rcases hdepth with h | h <;> simp [h]
  have hout : account_output nonzero disp_pred account parent max_depth report_top
      = !lone_matching_child nonzero account.total account.accounts := by
    unfold account_output
    rw [hgate, hpred, suppressed_eq]
    simp only [Bool.and_self, if_true, hd, Bool.and_true]
    cases lone_matching_child nonzero account.total account.accounts <;> rfl
  refine ⟨?_, ?_, ?_⟩
  · rw [hout]; simp
  · unfold format_account
    rw [hout]
    cases lone_matching_child nonzero account.total account.accounts <;> rfl
  · intro accounts2 hperm
    rw [suppressed_eq, suppressed_eq]
    exact lone_matching_child_perm nonzero account.total account.accounts accounts2 hperm

theorem account_suppression_witness :
    format_account int_env 'x' (fun b => b != 0) (fun _ => true)
        [{ type := some .STRING, chars := "row".toList }] {}
        { name := "Assets".toList, depth := 1, total := 5,
          accounts := [("Bank".toList, 5), ("Cash".toList, 0)] }
        [{ total := 5 }] 0 false
      = .ok ({}, { name := "Assets".toList, depth := 1, total := 5,
                   accounts := [("Bank".toList, 5), ("Cash".toList, 0)] }) ∧
    format_account int_env 'x' (fun b => b != 0) (fun _ => true)
        [{ type := some .STRING, chars := "row".toList }] {}
        { name := "Assets".toList, depth := 1, total := 8,
          accounts := [("Bank".toList, 8), ("Cash".toList, 3)] }
        [{ total := 8 }] 0 false
      = .ok ({ text := "row".toList },
             { name := "Assets".toList, displayed := true, depth := 1, total := 8,
               accounts := [("Bank".toList, 8), ("Cash".toList, 3)] }) :=
  ⟨(account_suppression int_env 'x' (fun b => b != 0) (fun _ => true)
      [{ type := some .STRING, chars := "row".toList }] {}
      { name := "Assets".toList, depth := 1, total := 5,
        accounts := [("Bank".toList, 5), ("Cash".toList, 0)] }
      [{ total := 5 }] 0 false rfl (Or.inr (by decide)) (Or.inl rfl)).2.1,
   (account_suppression int_env 'x' (fun b => b != 0) (fun _ => true)
      [{ type := some .STRING, chars := "row".toList }] {}
      { name := "Assets".toList, depth := 1, total := 8,
        accounts := [("Bank".toList, 8), ("Cash".toList, 3)] }
      [{ total := 8 }] 0 false rfl (Or.inr (by decide)) (Or.inl rfl)).2.1⟩

/-! ## Truncation: the edge cases -/

/-- C14 (the code at the failing inputs): for the text `ab` and the width 1, and
for the text `a` and the width 0, the index `width - 2` of the `strcpy` wraps
around as an `unsigned int` (to 4294967295 and 4294967294) and the two dots are
written outside of the buffer; only for the width 2 are the dots written inside
and returned. -/
theorem truncated_small_width :
    (1 + UINT_SIZE - 2) % UINT_SIZE = 4294967295 ∧
    truncated 'x' "ab".toList 1 = .error .out_of_bounds ∧
    truncated 'x' "a".toList 0 = .error .out_of_bounds ∧
    truncated 'x' "abc".toList 2 = .ok "..".toList := by
  decide

/-- C15 (the code at the failing inputs): `strncpy` is given the length of the
text, not the width. For the text `hello world` and the width 5 all 11 bytes are
in the buffer after the copy, and for a text of 300 bytes and the width 10 the
copy runs over the end of the 256 bytes of the buffer. -/
theorem truncated_copies_whole_text :
    strncpy (memset_buf 'x') "hello world".toList "hello world".toList.length
      = .ok ("hello world".toList ++ List.replicate 244 NUL ++ ['x']) ∧
    strncpy (memset_buf 'x') (List.replicate 300 'a') (List.replicate 300 'a').length
      = .error .out_of_bounds ∧
    truncated 'x' (List.replicate 300 'a') 10 = .error .out_of_bounds := by
  decide

/-! ## The scan cursor -/

/-- C20 (the code at the failing inputs): in each of the formats `abc%`, `%-`,
`%12` and `%.5` the directive ends on the terminator, the `switch` matches no
case, and the `p++` of the loop header moves the cursor behind the terminator,
where the loop condition reads. -/
theorem scan_past_terminator :
    parse_elements text_expr "abc%".toList = .error .out_of_bounds ∧
    parse_elements text_expr "%-".toList = .error .out_of_bounds ∧
    parse_elements text_expr "%12".toList = .error .out_of_bounds ∧
    parse_elements text_expr "%.5".toList = .error .out_of_bounds := by
  decide

/-! ## Account names: the claims -/

theorem intercalate_merge (L : List (List Char)) (x y : List Char) :
    [':'].intercalate (L ++ [x ++ ':' :: y]) = [':'].intercalate (L ++ [x, y]) := by
  induction L with
  | nil => simp [List.intercalate, List.intersperse]
  | cons a L ih =>
    cases L with
    | nil => simp [List.intercalate, List.intersperse]
    | cons b L =>
      simp only [List.intercalate, List.cons_append, List.intersperse,
        List.flatten_cons] at ih ⊢
      simp only [List.append_eq, List.nil_append]
      rw [ih]

/-- The loop of `partial_account_name` from a name built so far: the parts still
to come are put in front of it. -/
theorem partial_account_name_loop_eq {balance_t : Type} :
    ∀ (account : List (account_t balance_t)) (name : List Char),
      (∀ a ∈ account, a.name ≠ []) →
      partial_account_name_loop account name
        = (if name = [] then [':'].intercalate (partial_name_parts account)
           else [':'].intercalate (partial_name_parts account ++ [name])) := by
  intro account
  induction account with
  | nil => intro name _; by_cases h : name = [] <;>
      simp [partial_account_name_loop, partial_name_parts, List.intercalate, h]
  | cons a rest ih =>
    intro name hne
    cases rest with
    | nil =>
      by_cases h : name = [] <;>
        simp [partial_account_name_loop, partial_name_parts, List.intercalate, h]
    | cons p rest =>
      have ha : a.name ≠ [] := hne a (by simp)
      have hrest : ∀ b ∈ p :: rest, b.name ≠ [] := fun b hb => hne b (by simp [hb])
      unfold partial_account_name_loop
      by_cases hd : a.displayed = true
      · rw [if_pos hd]
        by_cases h : name = [] <;>
          simp [partial_name_parts, List.dropLast, hd, List.intercalate, h]
      · rw [if_neg hd]
        have hd2 : a.displayed = false := by simpa using hd
        have hparts : partial_name_parts (a :: p :: rest)
            = partial_name_parts (p :: rest) ++ [a.name] := by
          simp [partial_name_parts, List.dropLast, hd2]
        rw [hparts]
        by_cases h : name = []
        · rw [if_pos h, if_pos h, ih a.name hrest, if_neg ha]
        · have hn : a.name ++ ':' :: name ≠ [] := by simp
          rw [if_neg h, if_neg h, ih _ hrest, if_neg hn, intercalate_merge]
          simp

/-- C13: for every account in a chain of parents whose names are all non-empty,
`partial_account_name` is the names of the account and of its successive
ancestors, taken upward and stopping before the first node that is flagged
displayed or is the root, listed outermost first and joined by `:`; it is empty
when the account itself is flagged displayed or is the root. -/
theorem partial_account_name_eq {balance_t : Type}
    (account : account_t balance_t) (parent : List (account_t balance_t))
    (hne : ∀ a ∈ account :: parent, a.name ≠ []) :
    partial_account_name (account :: parent)
      = [':'].intercalate (partial_name_parts (account :: parent)) ∧
    (account.displayed = true ∨ parent = [] →
      partial_account_name (account :: parent) = []) := by
  have h := partial_account_name_loop_eq (account :: parent) [] hne
  rw [if_pos rfl] at h
  refine ⟨h, ?_⟩
  intro hcase
  rw [partial_account_name, h]
  rcases hcase with hd | hp
  · cases parent with
    | nil => simp [partial_name_parts, List.intercalate]
    | cons p rest => simp [partial_name_parts, List.dropLast, hd, List.intercalate]
  · subst hp
    simp [partial_name_parts, List.intercalate]

theorem partial_account_name_eq_witness :
    partial_account_name
        [({ name := "Checking".toList, total := 0 } : account_t Int),
         { name := "Bank".toList, total := 0 },
         { name := "Assets".toList, displayed := true, total := 0 },
         { name := "root".toList, total := 0 }]
      = "Bank:Checking".toList :=
  (partial_account_name_eq
    ({ name := "Checking".toList, total := 0 } : account_t Int)
    [{ name := "Bank".toList, total := 0 },
     { name := "Assets".toList, displayed := true, total := 0 },
     { name := "root".toList, total := 0 }]
    (by decide)).1

/-! ## Spacers and account names of the renderer: the claims -/

theorem write_space (out : ostream) :
    (out.write [' ']).text = out.text ++ List.replicate (max 1 out.width) ' ' ∧
    (out.write [' ']).width = 0 ∧ (out.write [' ']).left = out.left := by
  refine ⟨?_, rfl, rfl⟩
  have hmax : max 1 out.width = (out.width - 1) + 1 := by omega
  simp only [ostream.write, List.length_singleton, hmax]
  split
  · rw [List.replicate_succ]; rfl
  · rw [List.replicate_succ']

/-- The `SPACER` arm writes one field for each account of the chain that is
flagged displayed, starting with the account of the row itself. -/
theorem format_spacer_text {node balance_t : Type} (elem : element_t node) :
    ∀ (account : List (account_t balance_t)) (out : ostream),
      (elem.min_width = 0 ∧ elem.max_width = 0 → out.width = 0) →
      (format_spacer elem account out).text
        = out.text
          ++ ((account.filter (fun a => a.displayed)).map
                (fun _ => spacer_field elem)).flatten := by
  intro account
  induction account with
  | nil => intro out _; simp [format_spacer]
  | cons a rest ih =>
    intro out hw
    unfold format_spacer
    by_cases hd : a.displayed = true
    · rw [if_pos hd, List.filter_cons_of_pos (by simpa using hd)]
      by_cases hz : elem.min_width > 0 ∨ elem.max_width > 0
      · simp only [hz, if_true]
        rw [ih _ (fun _ => (write_space _).2.1), (write_space _).1]
        have hwid : (if elem.min_width > elem.max_width then elem.min_width
            else elem.max_width) = max elem.min_width elem.max_width := by
          split <;> omega
        simp [spacer_field, hwid]
      · simp only [hz, if_false]
        have h0 : elem.min_width = 0 ∧ elem.max_width = 0 := by omega
        rw [ih _ (fun _ => (write_space _).2.1), (write_space _).1, hw h0]
        simp [spacer_field, h0.1, h0.2]
    · rw [if_neg hd, List.filter_cons_of_neg (by simpa using hd)]
      exact ih out hw

/-- C11 (counterexample): the account of the row is flagged displayed and its
only ancestor is not; the claim asks for no field, as no ancestor is flagged,
but the `SPACER` element writes one field, for the account of the row itself. -/
theorem spacer_counts_row_account :
    ([({ total := 0 } : account_t Int)].filter (fun a => a.displayed)) = [] ∧
    format_elements int_env 'x' [{ type := some .SPACER }]
        { account := [{ displayed := true, total := 0 }, { total := 0 }] } {}
      = .ok { text := [' '] } := by
  decide

/-- C11 (amended): the `SPACER` element writes exactly one single-space field,
padded to the larger of its two widths, for each account that is flagged
displayed among the account of the row itself and its ancestors up to the root,
and writes nothing else, whatever `written` the stream already holds. -/
theorem spacer_fields {node amount_t balance_t : Type}
    [DecidableEq amount_t] [Neg amount_t] [Div amount_t]
    (env : collaborators node amount_t balance_t) (buf255 : Char)
    (elem : element_t node) (details : details_t amount_t balance_t)
    (written : List Char) (left : Bool) (hk : elem.type = some .SPACER) :
    ∃ out, format_elements env buf255 [elem] details { text := written, left := left }
        = .ok out ∧
      out.text = written
        ++ ((details.account.filter (fun a => a.displayed)).map
              (fun _ => spacer_field elem)).flatten := by
  refine ⟨_, by simp only [format_elements, format_element, hk]; rfl, ?_⟩
  rw [format_spacer_text elem details.account _ (by
    intro h0
    simp [h0.1])]
  split <;> rfl

theorem spacer_fields_witness :
    ∃ out, format_elements int_env 'x' [{ min_width := 2, type := some .SPACER }]
        { account := [{ name := "Checking".toList, total := 0 },
                      { name := "Bank".toList, displayed := true, total := 0 },
                      { name := "Assets".toList, displayed := true, total := 0 },
                      { total := 0 }] }
        { text := [], left := false }
        = .ok out ∧ out.text = "    ".toList :=
  spacer_fields int_env 'x' { min_width := 2, type := some .SPACER }
    { account := [{ name := "Checking".toList, total := 0 },
                  { name := "Bank".toList, displayed := true, total := 0 },
                  { name := "Assets".toList, displayed := true, total := 0 },
                  { total := 0 }] } [] false rfl

theorem c_str_length_le (A B : List Char) :
    (c_str (A ++ NUL :: B)).length ≤ A.length := by
  induction A with
  | nil => simp [c_str, List.takeWhile]
  | cons x xs ih =>
    unfold c_str at ih ⊢
    rw [List.cons_append, List.takeWhile_cons]
    split
    · simp only [List.length_cons]; omega
    · simp

theorem c_str_length_le_of_getD (buf : List Char) :
    ∀ w : Nat, buf.getD w NUL = NUL → (c_str buf).length ≤ w := by
  induction buf with
  | nil => intro w _; simp [c_str]
  | cons x xs ih =>
    intro w hw
    unfold c_str at ih ⊢
    rw [List.takeWhile_cons]
    split
    · rename_i hx
      cases w with
      | zero =>
        simp only [List.getD_cons_zero] at hw
        rw [hw] at hx
        exact absurd hx (by decide)
      | succ k =>
        simp only [List.getD_cons_succ] at hw
        have := ih k hw
        simp only [List.length_cons]
        omega
    · simp

theorem strncpy_length (buf0 src : List Char) (n : Nat) (buf : List Char)
    (h : strncpy buf0 src n = .ok buf) : buf.length = buf0.length := by
  unfold strncpy at h
  split at h
  · rename_i hn
    cases h
    have hc : ((c_str src).take n).length ≤ n := by
      simp only [List.length_take]; omega
    simp only [List.length_append, List.length_replicate, List.length_drop]
    omega
  · cases h

theorem strcpy_dots_length_le (buf : List Char) (w idx : Nat) (buf2 s : List Char)
    (hlen : buf.length = 256) (hidx : idx = w - 2 ∧ 2 ≤ w ∨ 256 ≤ idx)
    (hdots : strcpy_dots buf idx = .ok buf2)
    (hs : string_of_buf buf2 = .ok s) : s.length ≤ w := by
  unfold strcpy_dots at hdots
  split at hdots
  · rename_i hle
    cases hdots
    rcases hidx with ⟨hi, hw2⟩ | hbig
    · subst hi
      unfold string_of_buf at hs
      split at hs
      · cases hs
        have hshape : buf.take (w - 2) ++ ['.', '.', NUL] ++ buf.drop (w - 2 + 3)
            = (buf.take (w - 2) ++ ['.', '.']) ++ NUL :: buf.drop (w - 2 + 3) := by
          simp
        rw [hshape]
        refine (c_str_length_le _ _).trans ?_
        simp only [List.length_append, List.length_take, List.length_cons,
          List.length_nil]
        omega
      · cases hs
    · omega
  · cases hdots

theorem wrapped_index (w : Nat) (hw : w < 256) :
    (w + UINT_SIZE - 2) % UINT_SIZE = w - 2 ∧ 2 ≤ w
      ∨ 256 ≤ (w + UINT_SIZE - 2) % UINT_SIZE := by
  unfold UINT_SIZE
  omega

/-- Whenever `truncated` returns, the text it returns is not longer than the
width. -/
theorem truncated_length_le (buf255 : Char) (str : List Char) (w : Nat)
    (s : List Char) (h : truncated buf255 str w = .ok s) : s.length ≤ w := by
  have hm : (memset_buf buf255).length = 256 := by simp [memset_buf]
  unfold truncated at h
  simp only [] at h
  generalize memset_buf buf255 = buf0 at h hm
  by_cases hw : w < 256
  · rw [if_pos hw] at h
    have hidx := wrapped_index w hw
    generalize (w + UINT_SIZE - 2) % UINT_SIZE = idx at h hidx
    cases hcopy : strncpy buf0 str str.length with
    | error e => rw [hcopy] at h; cases h
    | ok buf =>
      rw [hcopy] at h
      simp only [] at h
      have hlen : buf.length = 256 := (strncpy_length _ _ _ _ hcopy).trans hm
      by_cases hz : (buf.getD w NUL != NUL) = true
      · rw [if_pos hz] at h
        cases hdots : strcpy_dots buf idx with
        | error e => rw [hdots] at h; cases h
        | ok buf2 =>
          rw [hdots] at h
          exact strcpy_dots_length_le buf w idx buf2 s hlen hidx hdots h
      · rw [if_neg hz] at h
        unfold string_of_buf at h
        split at h
        · cases h
          exact c_str_length_le_of_getD buf w (by simpa using hz)
        · cases h
  · rw [if_neg hw] at h
    cases h

/-- C12: for every row with an account and a transaction flagged virtual, and
every `ACCOUNT_NAME` or `ACCOUNT_FULLNAME` element with minimum width 0 and a
maximum width from 2 to 255, the text written is the result of `truncated` on
the (partial or full) name, between square brackets when the transaction has
the balance flag and between parentheses when it has not: the brackets are put
around the truncated text, which makes the written text at most two characters
longer than the width. When `truncated` does not return, nothing is written. -/
theorem virtual_account_name {node amount_t balance_t : Type}
    [DecidableEq amount_t] [Neg amount_t] [Div amount_t]
    (env : collaborators node amount_t balance_t) (buf255 : Char)
    (elem : element_t node) (entry : Option (entry_t amount_t))
    (xact : transaction_t amount_t) (account : account_t balance_t)
    (parent : List (account_t balance_t)) (written : List Char) (left : Bool)
    (hk : elem.type = some .ACCOUNT_NAME ∨ elem.type = some .ACCOUNT_FULLNAME)
    (hmin : elem.min_width = 0) (hw2 : 2 ≤ elem.max_width)
    (hw : elem.max_width < 256) (hv : xact.virt = true) :
    format_elements env buf255 [elem]
        { entry := entry, xact := some xact, account := account :: parent }
        { text := written, left := left }
      = (match truncated buf255
            (if elem.type = some .ACCOUNT_FULLNAME then env.fullname (account :: parent)
             else partial_account_name (account :: parent)) elem.max_width with
         | .ok s =>
           .ok { text := written ++ bracketed xact.balance s, width := 0,
                 left := elem.align_left }
         | .error e => .error e) ∧
    (∀ s, truncated buf255
            (if elem.type = some .ACCOUNT_FULLNAME then env.fullname (account :: parent)
             else partial_account_name (account :: parent)) elem.max_width = .ok s →
      (bracketed xact.balance s).length ≤ elem.max_width + 2) := by
  have hpos : elem.max_width > 0 := by omega
  constructor
  · rcases hk with hk | hk <;>
    · simp only [format_elements, format_element, hk, hmin, hpos, hv,
        List.isEmpty_cons, Bool.not_false, if_true, gt_iff_lt, lt_self_iff_false,
        if_false]
      cases truncated buf255 _ elem.max_width with
      | error e => rfl
      | ok s =>
        cases hb : xact.balance <;> simp [bracketed, ostream.write, hb]
  · intro s hs
    have := truncated_length_le buf255 _ elem.max_width s hs
    unfold bracketed
    split <;> simp only [List.length_cons, List.length_append, List.length_nil] <;> omega

theorem virtual_account_name_witness :
    format_elements int_env 'x' [{ max_width := 5, type := some .ACCOUNT_NAME }]
        { entry := none,
          xact := some { addr := 1, amount := 10, cost := 10, virt := true },
          account := [{ name := "Checking".toList, total := 0 }, { total := 0 }] }
        { text := [], left := false }
      = .ok { text := "(Che..)".toList } :=
  (virtual_account_name int_env 'x' { max_width := 5, type := some .ACCOUNT_NAME }
    none { addr := 1, amount := 10, cost := 10, virt := true }
    { name := "Checking".toList, total := 0 } [{ total := 0 }] [] false
    (Or.inl rfl) rfl (by decide) (by decide) rfl).1

/-! ## The transaction row driver: the claims -/

theorem negate_xact_twice {amount_t : Type} [AddCommGroup amount_t]
    (xact : register_transaction_t amount_t) :
    negate_xact (negate_xact xact) = xact := by
  simp [negate_xact]

/-- A call whose transaction passes the row-selection predicate. -/
theorem format_transaction_call_pass {amount_t : Type} [Add amount_t] [Neg amount_t]
    (disp_pred : register_transaction_t amount_t → Bool) (inverted : Bool)
    (st : format_transaction amount_t) (xact : register_transaction_t amount_t)
    (h : disp_pred (accumulate inverted st xact) = true) :
    format_transaction_call disp_pred inverted st xact
      = { state :=
            { last_entry := xact.entry
              last_xact :=
                some (if inverted then
                        negate_xact { accumulate inverted st xact with displayed := true }
                      else { accumulate inverted st xact with displayed := true }) }
          xact :=
            if inverted then
              negate_xact { accumulate inverted st xact with displayed := true }
            else { accumulate inverted st xact with displayed := true }
          shown :=
            some (decide (st.last_entry ≠ xact.entry),
                  { accumulate inverted st xact with displayed := true }) } := by
  have he : (accumulate inverted st xact).entry = xact.entry := by
    unfold accumulate
    cases st.last_xact <;> cases inverted <;> rfl
  unfold format_transaction_call
  simp only [h, Bool.not_true, Bool.false_eq_true, if_false]
  cases inverted <;> simp [negate_xact, he]

/-- A call whose transaction fails the row-selection predicate. -/
theorem format_transaction_call_fail {amount_t : Type} [Add amount_t] [Neg amount_t]
    (disp_pred : register_transaction_t amount_t → Bool) (inverted : Bool)
    (st : format_transaction amount_t) (xact : register_transaction_t amount_t)
    (h : disp_pred (accumulate inverted st xact) = false) :
    format_transaction_call disp_pred inverted st xact
      = { state := st, xact := accumulate inverted st xact, shown := none } := by
  unfold format_transaction_call
  simp [h]

theorem shown_isSome_iff {amount_t : Type} [Add amount_t] [Neg amount_t]
    (disp_pred : register_transaction_t amount_t → Bool) (inverted : Bool)
    (st : format_transaction amount_t) (xact : register_transaction_t amount_t) :
    (format_transaction_call disp_pred inverted st xact).shown.isSome
      = disp_pred (accumulate inverted st xact) := by
  cases h : disp_pred (accumulate inverted st xact)
  · rw [format_transaction_call_fail _ _ _ _ h]; rfl
  · rw [format_transaction_call_pass _ _ _ _ h]; rfl

theorem accumulate_total {amount_t : Type} [AddCommGroup amount_t]
    (inverted : Bool) (st : format_transaction amount_t)
    (xact : register_transaction_t amount_t) (h0 : xact.total = 0) :
    (accumulate inverted st xact).total
      = (match st.last_xact with
         | some last_xact => last_xact.total
         | none => 0) + signed_amount inverted xact := by
  unfold accumulate signed_amount
  cases st.last_xact <;> cases inverted <;> simp [negate_xact, h0]

theorem accumulate_index {amount_t : Type} [Add amount_t] [Neg amount_t]
    (inverted : Bool) (st : format_transaction amount_t)
    (xact : register_transaction_t amount_t) :
    (accumulate inverted st xact).index
      = (match st.last_xact with
         | some last_xact => last_xact.index + 1
         | none => 0) := by
  unfold accumulate
  cases st.last_xact <;> cases inverted <;> rfl

theorem accumulate_frame {amount_t : Type} [Add amount_t] [Neg amount_t]
    (inverted : Bool) (st : format_transaction amount_t)
    (xact : register_transaction_t amount_t) :
    (accumulate inverted st xact).entry = xact.entry ∧
    (accumulate inverted st xact).displayed = xact.displayed := by
  unfold accumulate
  cases st.last_xact <;> cases inverted <;> exact ⟨rfl, rfl⟩

/-- The running total from any members `st`: the total of the last row that was
displayed, plus the amounts fed since. -/
theorem running_total_from {amount_t : Type} [AddCommGroup amount_t]
    (disp_pred : register_transaction_t amount_t → Bool) (inverted : Bool) :
    ∀ (xs : List (register_transaction_t amount_t)) (st : format_transaction amount_t)
      (k : Nat) (r : call_result amount_t),
      (∀ x ∈ xs, x.total = 0) →
      (∀ r ∈ feed disp_pred inverted st xs, r.shown.isSome = true) →
      (feed disp_pred inverted st xs)[k]? = some r →
      r.xact.total
        = (match st.last_xact with
           | some last_xact => last_xact.total
           | none => 0) + ((xs.take (k + 1)).map (signed_amount inverted)).sum := by
  intro xs
  induction xs with
  | nil => intro st k r _ _ hk; simp [feed] at hk
  | cons x rest ih =>
    intro st k r h0 hpass hk
    have hx0 : x.total = 0 := h0 x (by simp)
    have hp : disp_pred (accumulate inverted st x) = true := by
      rw [← shown_isSome_iff disp_pred inverted st x]
      exact hpass _ (by simp [feed])
    have hcall := format_transaction_call_pass disp_pred inverted st x hp
    have htot : (format_transaction_call disp_pred inverted st x).xact.total
        = (match st.last_xact with
           | some last_xact => last_xact.total
           | none => 0) + signed_amount inverted x := by
      rw [hcall, ← accumulate_total inverted st x hx0]
      cases inverted <;> simp [negate_xact]
    cases k with
    | zero =>
      simp only [feed, List.getElem?_cons_zero, Option.some.injEq] at hk
      rw [← hk, htot]
      simp
    | succ k =>
      simp only [feed, List.getElem?_cons_succ] at hk
      have := ih (format_transaction_call disp_pred inverted st x).state k r
        (fun y hy => h0 y (by simp [hy]))
        (fun y hy => hpass y (by simp [feed, hy])) hk
      rw [this]
      have hst : (format_transaction_call disp_pred inverted st x).state.last_xact
          = some (format_transaction_call disp_pred inverted st x).xact := by
        rw [hcall]
      rw [hst]
      simp only [htot, List.take_succ_cons, List.map_cons, List.sum_cons]
      abel

/-- C16: for every sequence of transactions whose totals are zero and which all
pass the row-selection predicate, fed in order to a fresh `format_transaction`,
the total of the k-th transaction after its call is the sum of the amounts of
the first k transactions, each amount negated when the report is inverted. -/
theorem running_total {amount_t : Type} [AddCommGroup amount_t]
    (disp_pred : register_transaction_t amount_t → Bool) (inverted : Bool)
    (xs : List (register_transaction_t amount_t)) (k : Nat)
    (r : call_result amount_t) (h0 : ∀ x ∈ xs, x.total = 0)
    (hpass : ∀ r ∈ feed disp_pred inverted {} xs, r.shown.isSome = true)
    (hk : (feed disp_pred inverted {} xs)[k]? = some r) :
    r.xact.total = ((xs.take (k + 1)).map (signed_amount inverted)).sum := by
  have := running_total_from disp_pred inverted xs {} k r h0 hpass hk
  simpa using this

theorem running_total_witness :
    ∃ r, (feed (fun _ => true) true {} sample_xacts)[2]? = some r ∧
      r.xact.total = -5 :=
  ⟨_, rfl, running_total (fun _ => true) true sample_xacts 2 _ (by decide)
    (by decide) rfl⟩

theorem last_displayed_entry_concat {amount_t : Type}
    (prev : List (call_result amount_t)) (r : call_result amount_t) :
    last_displayed_entry (prev ++ [r])
      = (if r.shown.isSome then r.xact.entry else last_displayed_entry prev) := by
  unfold last_displayed_entry
  rw [List.filter_append, List.getLast?_append]
  by_cases h : r.shown.isSome = true
  · have hf : [r].filter (fun r => r.shown.isSome) = [r] := by simp [List.filter, h]
    rw [hf, if_pos h]
    rfl
  · have hf : [r].filter (fun r => r.shown.isSome) = [] := by simp [List.filter, h]
    rw [hf, if_neg h]
    cases (prev.filter (fun r => r.shown.isSome)).getLast? <;> rfl

/-- The calls on a sequence render what the description says, from any members
`st` whose `last_entry` is the entry of the last row displayed before. -/
theorem register_rows_from {node amount_t balance_t : Type}
    [DecidableEq amount_t] [Add amount_t] [Neg amount_t] [Div amount_t]
    (env : collaborators node amount_t balance_t) (buf255 : Char)
    (first_line_format next_lines_format : List (element_t node))
    (details : register_transaction_t amount_t → details_t amount_t balance_t)
    (disp_pred : register_transaction_t amount_t → Bool) (inverted : Bool) :
    ∀ (xs : List (register_transaction_t amount_t)) (st : format_transaction amount_t)
      (prev : List (call_result amount_t)) (out : ostream),
      st.last_entry = last_displayed_entry prev →
      register_rows env buf255 first_line_format next_lines_format details disp_pred
          inverted st xs out
        = (match expected_rows env buf255 first_line_format next_lines_format details
              prev (feed disp_pred inverted st xs) out with
           | .ok out => .ok (feed disp_pred inverted st xs, out)
           | .error e => .error e) := by
  intro xs
  induction xs with
  | nil => intro st prev out _; rfl
  | cons x rest ih =>
    intro st prev out hst
    have he := (accumulate_frame inverted st x).1
    simp only [register_rows, format_transaction_operator, format_transaction_output,
      feed, expected_rows]
    cases hp : disp_pred (accumulate inverted st x) with
    | false =>
      have hcall := format_transaction_call_fail disp_pred inverted st x hp
      rw [hcall]
      simp only []
      rw [ih st (prev ++ [{ state := st, xact := accumulate inverted st x, shown := none }])
        out (by rw [last_displayed_entry_concat]; simpa using hst)]
      cases expected_rows env buf255 first_line_format next_lines_format details
        (prev ++ [{ state := st, xact := accumulate inverted st x, shown := none }])
        (feed disp_pred inverted st rest) out <;> rfl
    | true =>
      have hcall := format_transaction_call_pass disp_pred inverted st x hp
      generalize hr : format_transaction_call disp_pred inverted st x = r at hcall ⊢
      have hshown : r.shown = some (decide (st.last_entry ≠ x.entry),
          { accumulate inverted st x with displayed := true }) := by rw [hcall]
      have hentry : r.xact.entry = x.entry := by
        rw [hcall]; cases inverted <;> simp [negate_xact, he]
      have hstate : r.state.last_entry = x.entry := by rw [hcall]
      rw [hshown]
      simp only []
      have hfmt : (if decide (st.last_entry ≠ x.entry) = true then first_line_format
            else next_lines_format)
          = (if last_displayed_entry prev ≠ r.xact.entry then first_line_format
             else next_lines_format) := by
        rw [hentry, ← hst]
        by_cases hne : st.last_entry ≠ x.entry <;> simp [hne]
      rw [hfmt]
      cases format_elements env buf255
          (if last_displayed_entry prev ≠ r.xact.entry then first_line_format
           else next_lines_format)
          (details { accumulate inverted st x with displayed := true }) out with
      | error e => rfl
      | ok out2 =>
        simp only []
        rw [ih r.state (prev ++ [r]) out2 (by
          rw [last_displayed_entry_concat, hshown, hstate, hentry]; rfl)]
        cases expected_rows env buf255 first_line_format next_lines_format details
          (prev ++ [r]) (feed disp_pred inverted r.state rest) out2 <;> rfl

/-- C17 (counterexample): a transaction whose entry pointer is null passes the
row-selection predicate as the first one fed to a fresh `format_transaction`. No
transaction was displayed before it, so the claim asks for the first-line
format, but `last_entry` is null too and the row is rendered with the
continuation format. -/
theorem null_entry_continuation :
    register_rows int_env 'x' [{ type := some .STRING, chars := "first".toList }]
        [{ type := some .STRING, chars := "next".toList }] xact_details
        (fun _ => true) false {}
        [{ addr := 1, amount := 100, cost := 100, total := 0, entry := none }] {}
      = .ok (feed (fun _ => true) false {}
              [{ addr := 1, amount := 100, cost := 100, total := 0, entry := none }],
             { text := "next".toList }) := by
  decide

/-- C17 (amended): in non-collapsed mode, for every sequence of transactions fed
to a fresh `format_transaction` and every pair of formats, the stream after the
calls is the one on which each transaction that passes the row-selection
predicate is rendered exactly once, with the first-line format if and only if
its entry pointer differs from the entry pointer of the most recent transaction
displayed before it, or from the null pointer when there is none, and with the
continuation format otherwise, and on which a transaction that fails the
predicate renders nothing; a call renders a row exactly when the predicate
holds. -/
theorem first_line_or_continuation {node amount_t balance_t : Type}
    [DecidableEq amount_t] [Add amount_t] [Neg amount_t] [Div amount_t]
    (env : collaborators node amount_t balance_t) (buf255 : Char)
    (first_line_format next_lines_format : List (element_t node))
    (details : register_transaction_t amount_t → details_t amount_t balance_t)
    (disp_pred : register_transaction_t amount_t → Bool) (inverted : Bool)
    (xs : List (register_transaction_t amount_t)) (out : ostream) :
    register_rows env buf255 first_line_format next_lines_format details disp_pred
        inverted {} xs out
      = (match expected_rows env buf255 first_line_format next_lines_format details
            [] (feed disp_pred inverted {} xs) out with
         | .ok out => .ok (feed disp_pred inverted {} xs, out)
         | .error e => .error e) ∧
    (∀ (st : format_transaction amount_t) (x : register_transaction_t amount_t),
      (format_transaction_call disp_pred inverted st x).shown.isSome
        = disp_pred (accumulate inverted st x)) :=
  ⟨register_rows_from env buf255 first_line_format next_lines_format details
      disp_pred inverted xs {} [] out rfl,
   shown_isSome_iff disp_pred inverted⟩

theorem first_line_or_continuation_witness :
    register_rows int_env 'x' [{ type := some .STRING, chars := "F".toList }]
        [{ type := some .STRING, chars := "c".toList }] xact_details
        (fun _ => true) false {} sample_xacts {}
      = .ok (feed (fun _ => true) false {} sample_xacts, { text := "FcF".toList }) ∧
    register_rows int_env 'x' [{ type := some .STRING, chars := "F".toList }]
        [{ type := some .STRING, chars := "c".toList }] xact_details
        (fun x => x.addr != 1) false {} sample_xacts {}
      = .ok (feed (fun x => x.addr != 1) false {} sample_xacts,
             { text := "FF".toList }) :=
  ⟨(first_line_or_continuation int_env 'x'
      [{ type := some .STRING, chars := "F".toList }]
      [{ type := some .STRING, chars := "c".toList }] xact_details
      (fun _ => true) false sample_xacts {}).1,
   (first_line_or_continuation int_env 'x'
      [{ type := some .STRING, chars := "F".toList }]
      [{ type := some .STRING, chars := "c".toList }] xact_details
      (fun x => x.addr != 1) false sample_xacts {}).1⟩

/-- The index from any members `st`: the index that follows that of the last
row displayed, plus the number of rows displayed since. -/
theorem index_from {amount_t : Type} [Add amount_t] [Neg amount_t]
    (disp_pred : register_transaction_t amount_t → Bool) (inverted : Bool) :
    ∀ (xs : List (register_transaction_t amount_t)) (st : format_transaction amount_t)
      (k : Nat) (r : call_result amount_t),
      (feed disp_pred inverted st xs)[k]? = some r →
      r.shown.isSome = true →
      r.xact.index
          = (match st.last_xact with
             | some last_xact => last_xact.index + 1
             | none => 0)
            + ((feed disp_pred inverted st xs).take k).countP (fun r => r.shown.isSome) ∧
        r.xact.displayed = true := by
  intro xs
  induction xs with
  | nil => intro st k r hk; simp [feed] at hk
  | cons x rest ih =>
    intro st k r hk hs
    cases k with
    | zero =>
      simp only [feed, List.getElem?_cons_zero, Option.some.injEq] at hk
      subst hk
      rw [shown_isSome_iff] at hs
      rw [format_transaction_call_pass _ _ _ _ hs]
      have hi := accumulate_index inverted st x
      cases inverted <;> simp [negate_xact, hi]
    | succ k =>
      simp only [feed, List.getElem?_cons_succ] at hk
      obtain ⟨hidx, hdisp⟩ :=
        ih (format_transaction_call disp_pred inverted st x).state k r hk hs
      refine ⟨?_, hdisp⟩
      rw [hidx]
      simp only [feed, List.take_succ_cons, List.countP_cons]
      cases hp : disp_pred (accumulate inverted st x) with
      | false =>
        rw [format_transaction_call_fail _ _ _ _ hp]
        simp
      | true =>
        rw [format_transaction_call_pass _ _ _ _ hp]
        have hi := accumulate_index inverted st x
        cases inverted <;> simp [negate_xact, hi] <;> omega

/-- C18: for every sequence of transactions fed in order to a fresh
`format_transaction`, a transaction that passes the row-selection predicate is
assigned the number of the transactions displayed before it as its index, 0 for
the first one, and gains the flag displayed; a transaction that fails the
predicate renders nothing, keeps its flag displayed as it was, and leaves the
members `last_entry` and `last_xact` unchanged. -/
theorem skipped_rows_not_counted {amount_t : Type} [Add amount_t] [Neg amount_t]
    (disp_pred : register_transaction_t amount_t → Bool) (inverted : Bool)
    (xs : List (register_transaction_t amount_t)) :
    (∀ (k : Nat) (r : call_result amount_t),
      (feed disp_pred inverted {} xs)[k]? = some r →
      r.shown.isSome = true →
      r.xact.index
          = ((feed disp_pred inverted {} xs).take k).countP (fun r => r.shown.isSome) ∧
        r.xact.displayed = true) ∧
    (∀ (st : format_transaction amount_t) (x : register_transaction_t amount_t),
      disp_pred (accumulate inverted st x) = false →
      (format_transaction_call disp_pred inverted st x).shown = none ∧
      (format_transaction_call disp_pred inverted st x).xact.displayed = x.displayed ∧
      (format_transaction_call disp_pred inverted st x).state = st) := by
  constructor
  · intro k r hk hs
    have := index_from disp_pred inverted xs {} k r hk hs
    simpa using this
  · intro st x hp
    rw [format_transaction_call_fail _ _ _ _ hp]
    exact ⟨rfl, (accumulate_frame inverted st x).2, rfl⟩

theorem skipped_rows_not_counted_witness :
    (∃ r, (feed (fun x => x.addr != 2) false {} sample_xacts)[2]? = some r ∧
      r.xact.index = 1 ∧ r.xact.displayed = true) ∧
    (format_transaction_call (fun x => x.addr != 2) false {}
        { addr := 2, amount := (-100 : Int), cost := -100, total := 0, entry := some 1 }).state
      = {} :=
  ⟨⟨_, rfl,
    (skipped_rows_not_counted (fun x => x.addr != 2) false sample_xacts).1 2 _ rfl rfl⟩,
   ((skipped_rows_not_counted (fun x => x.addr != 2) false sample_xacts).2 {}
      { addr := 2, amount := (-100 : Int), cost := -100, total := 0, entry := some 1 }
      rfl).2.2⟩

/-- A call leaves amount and cost as they were when the report is not inverted
or the transaction passes the row-selection predicate. -/
theorem amount_restored {amount_t : Type} [AddCommGroup amount_t]
    (disp_pred : register_transaction_t amount_t → Bool) (inverted : Bool)
    (st : format_transaction amount_t) (xact : register_transaction_t amount_t)
    (h : inverted = false ∨ disp_pred (accumulate inverted st xact) = true) :
    (format_transaction_call disp_pred inverted st xact).xact.amount = xact.amount ∧
    (format_transaction_call disp_pred inverted st xact).xact.cost = xact.cost := by
  have hacc : (accumulate inverted st xact).amount
        = (if inverted then - xact.amount else xact.amount) ∧
      (accumulate inverted st xact).cost
        = (if inverted then - xact.cost else xact.cost) := by
    unfold accumulate
    cases st.last_xact <;> cases inverted <;> exact ⟨rfl, rfl⟩
  cases hp : disp_pred (accumulate inverted st xact) with
  | false =>
    rcases h with h | h
    · subst h
      rw [format_transaction_call_fail _ _ _ _ hp]
      simpa using hacc
    · rw [hp] at h; cases h
  | true =>
    rw [format_transaction_call_pass _ _ _ _ hp]
    cases inverted
    · simpa using hacc
    · simp only [if_true, negate_xact] at hacc ⊢
      simp [hacc.1, hacc.2]

/-- C19 (the code at the failing input): in an inverted report, a transaction
with amount and cost 100 that fails the row-selection predicate comes back from
the call with amount and cost -100: the call returns at line 362, in front of
the statements that undo the negation. -/
theorem negation_not_undone :
    (format_transaction_call (fun _ => false) true {}
        { addr := 1, amount := (100 : Int), cost := 100, total := 0, entry := some 1 }).xact.amount
      = -100 ∧
    (format_transaction_call (fun _ => false) true {}
        { addr := 1, amount := (100 : Int), cost := 100, total := 0, entry := some 1 }).xact.cost
      = -100 := by
  decide

end ledger
